import Mathlib

/-!
Shallow embedding of the flowmap subgrid module (src/flowmap/subgrid.py):
the per-cell volume-table builder (build_tables), the bisection level
solver (subgrid_compute), band and feature compositing (compute_band,
compute_features) and the netCDF table store (create_export,
export_tables, import_tables).

Modelling conventions: machine floats become exact rationals, numpy
arrays become lists, the masked elevation raster becomes a value
function together with a mask predicate on pixel coordinates, and the
netCDF container becomes a record of per-cell optional rows where an
unwritten row reads back as the masked sentinel (none).  In-place
mutation of the pandas table (the vol1 / s1 / waterdepth column
assignments) is made explicit: the mutated table is an extra component
of the result.
-/

namespace Flowmap

/-- Python bisect.bisect (= bisect_right) applied to the cumulative
volume table.  On a list sorted in nondecreasing order the right-biased
insertion point is exactly the number of elements that are at most x,
which is the model used here. -/
def bisect (l : List ℚ) (x : ℚ) : ℕ :=
  l.countP (fun a => decide (a ≤ x))

/-- Python sequence indexing, where a negative index counts from the end
of the list.  The solver uses index -1 and fill_idx - 1, the latter
being -1 exactly when fill_idx is 0, so for fill_idx = 0 the code reads
the LAST entry of the cumulative table.  Out-of-range access (which
raises IndexError in Python and is never reached on the values the
claims quantify over) defaults to 0. -/
def pyIdx (l : List ℚ) (i : ℤ) : ℚ :=
  if i < 0 then l.getD (l.length - (-i).toNat) 0 else l.getD i.toNat 0

/-- numpy.cumsum over a rational array: entry k is the sum of the first
k+1 input entries. -/
def cumsum (l : List ℚ) : List ℚ :=
  (List.range l.length).map (fun k => (l.take (k + 1)).sum)

/-- numpy.cumsum over an integer count array. -/
def cumsumN (l : List ℕ) : List ℕ :=
  (List.range l.length).map (fun k => (l.take (k + 1)).sum)

/-- Core of subgrid_compute once a table is present (subgrid.py lines
53-63): bisect the cumulative volume table at the observed volume, then
either extrapolate flatly above the last bin edge (when fill_idx is at
least len(cum_volume_table) - 1) or interpolate linearly inside bin
fill_idx.  remaining_volume reads cum_volume_table[fill_idx - 1]
through Python indexing, so for fill_idx = 0 it reads the last entry. -/
def solveLevel (bin_edges volume_table cum_volume_table : List ℚ)
    (vol_i face_area : ℚ) : ℚ :=
  let fill_idx := bisect cum_volume_table vol_i
  let remaining_volume := vol_i - pyIdx cum_volume_table ((fill_idx : ℤ) - 1)
  if cum_volume_table.length - 1 ≤ fill_idx then
    pyIdx bin_edges (-1) + (vol_i - pyIdx cum_volume_table (-1)) / face_area
  else
    let remaining_volume_fraction :=
      remaining_volume / pyIdx volume_table (fill_idx : ℤ)
    pyIdx bin_edges (fill_idx : ℤ) +
      remaining_volume_fraction *
        (pyIdx bin_edges ((fill_idx : ℤ) + 1) - pyIdx bin_edges (fill_idx : ℤ))

/-- The two method strings subgrid_compute is called with ("waterlevel"
and "waterdepth"); any other string raises UnboundLocalError in the
source and is not part of the interface. -/
inductive Method where
  | waterlevel : Method
  | waterdepth : Method
  deriving DecidableEq

/-- Result of subgrid_compute: a scalar target level or a per-pixel
depth array over the cell window. -/
inductive SolveResult where
  | level : ℚ → SolveResult
  | depth : List ℚ → SolveResult
  deriving DecidableEq

/-- A terrain window: the bounding pixel rectangle of a cell, stored as
the two half-open ranges [r0, r1) x [c0, c1) of the numpy slice pair. -/
structure PxSlice where
  r0 : ℕ
  r1 : ℕ
  c0 : ℕ
  c1 : ℕ
  deriving DecidableEq, Inhabited

/-- The pixels of a window in row-major order, matching the layout of
the numpy 2-d slice dem['band'][r0:r1, c0:c1]. -/
def PxSlice.pixels (s : PxSlice) : List (ℕ × ℕ) :=
  ((List.range (s.r1 - s.r0)).map (fun i =>
    (List.range (s.c1 - s.c0)).map (fun j => (s.r0 + i, s.c0 + j)))).flatten

/-- The terrain raster: elevation per pixel, validity mask (true =
masked / invalid pixel), the absolute pixel area |affine.a * affine.e|
used by build_tables, and the pixel sizes dxp, dyp used by
subgrid_compute. -/
structure DemModel where
  band : ℕ × ℕ → ℚ
  mask : ℕ × ℕ → Bool
  pixelArea : ℚ
  dxp : ℚ
  dyp : ℚ

/-- One row of the tables DataFrame as built by build_tables.  The four
histogram fields are None (none) for an invalid cell.  The vol1, s1,
waterdepth and subgrid result columns are added in place later by
compute_band / compute_features; build_tables leaves them at the
defaults below, which model the columns being absent. -/
structure TableRow where
  id : ℕ
  slice : PxSlice
  extent : List ℚ
  bin_edges : Option (List ℚ)
  n_per_bin : Option (List ℕ)
  volume_table : Option (List ℚ)
  cum_volume_table : Option (List ℚ)
  vol1 : ℚ := 0
  s1 : ℚ := 0
  waterdepth : ℚ := 0
  subgrid_result : Option SolveResult := none
  deriving DecidableEq

/-- Row used for getD defaults in statements; never influences results
on in-range indices. -/
def defaultRow : TableRow :=
  { id := 0, slice := ⟨0, 0, 0, 0⟩, extent := [], bin_edges := none,
    n_per_bin := none, volume_table := none, cum_volume_table := none }

/-- face_area of subgrid_compute: np.prod(dem_i.shape) * dxp * dyp for
the row's window. -/
def rowFaceArea (row : TableRow) (dem : DemModel) : ℚ :=
  (((row.slice.r1 - row.slice.r0) * (row.slice.c1 - row.slice.c0) : ℕ) : ℚ) *
    (dem.dxp * dem.dyp)

/-- target_level of subgrid_compute for a row whose bin_edges are
present. -/
def rowLevel (row : TableRow) (dem : DemModel) (bin_edges : List ℚ) : ℚ :=
  solveLevel bin_edges (row.volume_table.getD []) (row.cum_volume_table.getD [])
    row.vol1 (rowFaceArea row dem)

/-- subgrid_compute (subgrid.py lines 31-72): None when the row has no
volume table; otherwise solve for the target level and return it
(method "waterlevel") or the per-pixel water depth over the window
(method "waterdepth", zero where the terrain is at or above the
level).  The imported-table branch reading slice_0..slice_3 instead of
a slice object is the same window lookup and is not duplicated here. -/
def subgrid_compute (row : TableRow) (dem : DemModel) (method : Method) :
    Option SolveResult :=
  match row.bin_edges with
  | none => none
  | some bin_edges =>
    let dem_i := row.slice.pixels.map dem.band
    let target_level := rowLevel row dem bin_edges
    match method with
    | Method.waterlevel => some (SolveResult.level target_level)
    | Method.waterdepth =>
      some (SolveResult.depth
        (dem_i.map (fun z => if z < target_level then target_level - z else 0)))

/-- numpy histogram outer edges for np.histogram(data, bins=20): the
(min, max) range of the data, widened to (v - 1/2, v + 1/2) for
constant data and defaulting to (0, 1) for empty data, exactly as
numpy._get_outer_edges does. -/
def histRange : List ℚ → ℚ × ℚ
  | [] => (0, 1)
  | x :: xs =>
    let mn := xs.foldl min x
    let mx := xs.foldl max x
    if mn = mx then (mn - 1 / 2, mn + 1 / 2) else (mn, mx)

/-- The 21 equal-width bin edges of np.histogram(data, bins=20). -/
def histEdges (lo hi : ℚ) : List ℚ :=
  (List.range 21).map (fun k : ℕ => lo + (hi - lo) * (k : ℚ) / 20)

/-- The per-bin counts of np.histogram(data, bins=20): bins are
half-open on the right except the last bin, which is closed. -/
def histCounts (data : List ℚ) (lo hi : ℚ) : List ℕ :=
  (List.range 20).map (fun k : ℕ =>
    if k = 19 then
      data.countP (fun z =>
        decide (lo + (hi - lo) * 19 / 20 ≤ z) && decide (z ≤ hi))
    else
      data.countP (fun z =>
        decide (lo + (hi - lo) * (k : ℚ) / 20 ≤ z) &&
          decide (z < lo + (hi - lo) * ((k : ℚ) + 1) / 20)))

/-- A mesh cell as the core consumes it: its terrain window (the pixel
bounding box the source derives from world2px of the face polygon) and
its world-extent record [x_min, x_max, y_min, y_max]. -/
structure Cell where
  window : PxSlice
  extent : List ℚ
  deriving DecidableEq, Inhabited

/-- The window elevations dem_i of a cell, flattened in row-major
order. -/
def buildData (dem : DemModel) (cell : Cell) : List ℚ :=
  cell.window.pixels.map dem.band

/-- The bin edges np.histogram produces for a cell's window. -/
def buildEdges (dem : DemModel) (cell : Cell) : List ℚ :=
  histEdges (histRange (buildData dem cell)).1 (histRange (buildData dem cell)).2

/-- The per-bin counts np.histogram produces for a cell's window. -/
def buildCounts (dem : DemModel) (cell : Cell) : List ℕ :=
  histCounts (buildData dem cell) (histRange (buildData dem cell)).1
    (histRange (buildData dem cell)).2

/-- volume_table of build_tables: |affine.a * affine.e| * n_cum *
np.diff(bin_edges), elementwise over the 20 bins, where n_cum is the
running sum of the histogram counts. -/
def buildVolumeTable (dem : DemModel) (cell : Cell) : List ℚ :=
  (List.range 20).map (fun k =>
    dem.pixelArea * (((cumsumN (buildCounts dem cell)).getD k 0 : ℕ) : ℚ) *
      ((buildEdges dem cell).getD (k + 1) 0 - (buildEdges dem cell).getD k 0))

/-- Per-cell body of the build_tables loop (subgrid.py lines 97-129):
if any pixel of the window is masked, emit the empty table (all four
histogram fields None); otherwise histogram the window elevations into
20 bins, form volume_table = pixel_area * cumulative_count * bin_width
elementwise, and its running sum cum_volume_table. -/
def buildRow (dem : DemModel) (id_ : ℕ) (cell : Cell) : TableRow :=
  if cell.window.pixels.any dem.mask then
    { id := id_, slice := cell.window, extent := cell.extent,
      bin_edges := none, n_per_bin := none,
      volume_table := none, cum_volume_table := none }
  else
    { id := id_, slice := cell.window, extent := cell.extent,
      bin_edges := some (buildEdges dem cell),
      n_per_bin := some (buildCounts dem cell),
      volume_table := some (buildVolumeTable dem cell),
      cum_volume_table := some (cumsum (buildVolumeTable dem cell)) }

/-- build_tables: one row per mesh cell, in mesh index order, with the
enumeration index as row id. -/
def build_tables (dem : DemModel) (cells : List Cell) : List TableRow :=
  (List.range cells.length).map (fun i => buildRow dem i (cells.getD i default))

/-- band[row.slice] = result: write a solver result into the window of
a masked band, elementwise for depth arrays and broadcast for scalar
levels; pixels outside the window keep their previous contents. -/
def bandWrite (band : ℕ × ℕ → Option ℚ) (s : PxSlice) (res : SolveResult) :
    ℕ × ℕ → Option ℚ :=
  fun p =>
    match res with
    | SolveResult.level x => if p ∈ s.pixels then some x else band p
    | SolveResult.depth d =>
      match List.lookup p (s.pixels.zip d) with
      | some v => some v
      | none => band p

/-- Loop body of compute_band: an unsolvable row is appended to the
excluded list and the band is left untouched for it; otherwise the
result is written into the row's window. -/
def bandStep (dem : DemModel) (method : Method)
    (acc : List ℕ × (ℕ × ℕ → Option ℚ)) (row : TableRow) :
    List ℕ × (ℕ × ℕ → Option ℚ) :=
  match subgrid_compute row dem method with
  | none => (acc.1 ++ [row.id], acc.2)
  | some result => (acc.1, bandWrite acc.2 row.slice result)

/-- compute_band (subgrid.py lines 180-199).  The source first assigns
tables['vol1'] = data['vol1'] in place; that mutation is made explicit
as the third component of the result.  The band starts as
np.ma.masked_all (everywhere none) and is filled cell by cell;
excluded cell ids are collected in order. -/
def compute_band (dem : DemModel) (tables : List TableRow) (vol1 : ℕ → ℚ)
    (method : Method) :
    List ℕ × (ℕ × ℕ → Option ℚ) × List TableRow :=
  let withData := tables.map (fun r => { r with vol1 := vol1 r.id })
  let folded := withData.foldl (bandStep dem method) ([], fun _ => none)
  (folded.1, folded.2, withData)

/-- One point feature of compute_features: cell id plus the scalar
properties written by row2feature. -/
structure Feature where
  id : ℕ
  s1 : ℚ
  subgrid : Option SolveResult
  vol1 : ℚ
  waterdepth : ℚ
  deriving DecidableEq

/-- compute_features (subgrid.py lines 137-177).  The source assigns
the vol1, s1 and waterdepth data columns and then the per-row solver
results into the tables DataFrame in place; the mutated tables are the
second component of the result, the feature collection the first. -/
def compute_features (dem : DemModel) (tables : List TableRow)
    (vol1 s1 waterdepth : ℕ → ℚ) (method : Method) :
    List Feature × List TableRow :=
  let withData := tables.map (fun r =>
    { r with vol1 := vol1 r.id, s1 := s1 r.id, waterdepth := waterdepth r.id })
  let withResults := withData.map (fun r =>
    { r with subgrid_result := subgrid_compute r dem method })
  let features := withResults.map (fun r =>
    { id := r.id, s1 := r.s1, subgrid := r.subgrid_result,
      vol1 := r.vol1, waterdepth := r.waterdepth })
  (features, withResults)

/-- The netCDF table container of create_export: per-cell optional rows
for the six declared variables.  none models a row that was never
written and therefore reads back as the netCDF fill-value sentinel
(a fully masked row). -/
structure Store where
  nCells : ℕ
  bin_edges : ℕ → Option (List ℚ)
  cum_volume_table : ℕ → Option (List ℚ)
  volume_table : ℕ → Option (List ℚ)
  extent : ℕ → Option (List ℚ)
  n_per_bin : ℕ → Option (List ℕ)
  slice : ℕ → Option (List ℕ)

/-- create_export: a fresh container with every cell row unwritten. -/
def create_export (n : ℕ) : Store :=
  { nCells := n, bin_edges := fun _ => none, cum_volume_table := fun _ => none,
    volume_table := fun _ => none, extent := fun _ => none,
    n_per_bin := fun _ => none, slice := fun _ => none }

/-- Per-row body of export_tables: each of the five listed variables is
written at the row id unless its value is None (which is skipped,
leaving the fill value); the window is always written as the four
integers [row start, row stop, column start, column stop]. -/
def exportRow (ds : Store) (row : TableRow) : Store :=
  let ds1 := match row.bin_edges with
    | none => ds
    | some v => { ds with bin_edges := Function.update ds.bin_edges row.id (some v) }
  let ds2 := match row.cum_volume_table with
    | none => ds1
    | some v =>
      { ds1 with cum_volume_table := Function.update ds1.cum_volume_table row.id (some v) }
  let ds3 := match row.volume_table with
    | none => ds2
    | some v =>
      { ds2 with volume_table := Function.update ds2.volume_table row.id (some v) }
  let ds4 := { ds3 with extent := Function.update ds3.extent row.id (some row.extent) }
  let ds5 := match row.n_per_bin with
    | none => ds4
    | some v =>
      { ds4 with n_per_bin := Function.update ds4.n_per_bin row.id (some v) }
  let sliceVal := some [row.slice.r0, row.slice.r1, row.slice.c0, row.slice.c1]
  { ds5 with slice := Function.update ds5.slice row.id sliceVal }

/-- export_tables: write every table row into the container in order. -/
def export_tables (ds : Store) (tables : List TableRow) : Store :=
  tables.foldl exportRow ds

/-- One row of the DataFrame import_tables builds: the five stored
variables (masked rows read back as none) and the four window integers
as separate slice_0..slice_3 columns. -/
structure ImportedRow where
  bin_edges : Option (List ℚ)
  cum_volume_table : Option (List ℚ)
  volume_table : Option (List ℚ)
  extent : Option (List ℚ)
  n_per_bin : Option (List ℕ)
  slice_0 : Option ℕ
  slice_1 : Option ℕ
  slice_2 : Option ℕ
  slice_3 : Option ℕ
  deriving DecidableEq

/-- Default for getD in statements about imported rows. -/
def defaultImported : ImportedRow :=
  { bin_edges := none, cum_volume_table := none, volume_table := none,
    extent := none, n_per_bin := none, slice_0 := none, slice_1 := none,
    slice_2 := none, slice_3 := none }

/-- import_tables: read the container back, one row per cell index in
index order (the DataFrame index is arange(n_cells)). -/
def import_tables (ds : Store) : List ImportedRow :=
  (List.range ds.nCells).map (fun i =>
    { bin_edges := ds.bin_edges i,
      cum_volume_table := ds.cum_volume_table i,
      volume_table := ds.volume_table i,
      extent := ds.extent i,
      n_per_bin := ds.n_per_bin i,
      slice_0 := (ds.slice i).map (fun l => l.getD 0 0),
      slice_1 := (ds.slice i).map (fun l => l.getD 1 0),
      slice_2 := (ds.slice i).map (fun l => l.getD 2 0),
      slice_3 := (ds.slice i).map (fun l => l.getD 3 0) })

/-- The on-disk image of a table row: what a round trip through
export_tables / import_tables reproduces for that row.  The four
histogram fields keep their optionality (an empty cell stays masked),
while extent and the window are written for every row. -/
def rowImage (r : TableRow) : ImportedRow :=
  { bin_edges := r.bin_edges, cum_volume_table := r.cum_volume_table,
    volume_table := r.volume_table, extent := some r.extent,
    n_per_bin := r.n_per_bin, slice_0 := some r.slice.r0,
    slice_1 := some r.slice.r1, slice_2 := some r.slice.c0,
    slice_3 := some r.slice.c1 }

/-! Concrete fixtures used by witnesses and counterexamples.  The
table below is the scenario table of the spec: bin edges [0,1,2,3,4],
per-bin volumes [10,15,20,25] and cumulative volumes [10,25,45,70]. -/

/-- Scenario bin edges. -/
def edges4 : List ℚ := [0, 1, 2, 3, 4]

/-- Scenario per-bin volume table. -/
def vt4 : List ℚ := [10, 15, 20, 25]

/-- Scenario cumulative volume table. -/
def cum4 : List ℚ := [10, 25, 45, 70]

/-- A clean flat raster: elevation 0 everywhere, nothing masked, unit
pixels. -/
def demC : DemModel :=
  { band := fun _ => 0, mask := fun _ => false, pixelArea := 1, dxp := 1, dyp := 1 }

/-- A constant raster at elevation 3, nothing masked. -/
def demConst3 : DemModel :=
  { band := fun _ => 3, mask := fun _ => false, pixelArea := 1, dxp := 1, dyp := 1 }

/-- A raster with two elevations: 0 in pixel column 0, 1 elsewhere. -/
def dem01 : DemModel :=
  { band := fun p => if p.2 = 0 then 0 else 1, mask := fun _ => false,
    pixelArea := 1, dxp := 1, dyp := 1 }

/-- A raster masked exactly at pixel (0, 0). -/
def demM : DemModel :=
  { band := fun _ => 2, mask := fun p => decide (p = (0, 0)),
    pixelArea := 1, dxp := 1, dyp := 1 }

/-- A raster masked exactly at pixel (1, 0), used by the store
round-trip fixtures. -/
def demA : DemModel :=
  { band := fun _ => 2, mask := fun p => decide (p = (1, 0)),
    pixelArea := 1, dxp := 1, dyp := 1 }

/-- A raster with elevation 1 in pixel column 0 and 3 elsewhere. -/
def demTer : DemModel :=
  { band := fun p => if p.2 = 0 then 1 else 3, mask := fun _ => false,
    pixelArea := 1, dxp := 1, dyp := 1 }

/-- A 1 x 2 pixel window with cell extent left empty. -/
def cellU2 : Cell := { window := ⟨0, 1, 0, 2⟩, extent := [] }

/-- A degenerate (zero-row) window: the numpy slice 0:0 along rows. -/
def cellDeg : Cell := { window := ⟨0, 0, 0, 5⟩, extent := [] }

/-- A single-pixel window at the origin (masked under demM). -/
def cellM : Cell := { window := ⟨0, 1, 0, 1⟩, extent := [0, 1, 0, 1] }

/-- Two cells for the store round trip: the first valid under demA, the
second covering only the masked pixel (1, 0). -/
def cellsA : List Cell :=
  [{ window := ⟨0, 1, 0, 2⟩, extent := [0, 2, 0, 1] },
   { window := ⟨1, 2, 0, 1⟩, extent := [5, 6, 7, 8] }]

/-- A row carrying the scenario table over a 1 x 2 window, observed
volume 30. -/
def rowTab : TableRow :=
  { id := 0, slice := ⟨0, 1, 0, 2⟩, extent := [], bin_edges := some edges4,
    n_per_bin := some [1, 1, 1, 1], volume_table := some vt4,
    cum_volume_table := some cum4, vol1 := 30 }

/-- The scenario table over a 5 x 5 window (face area 25), so that the
last-bin capacity bound vt[3] = 25 <= 25 * bin_width holds. -/
def rowMono : TableRow :=
  { id := 0, slice := ⟨0, 5, 0, 5⟩, extent := [], bin_edges := some edges4,
    n_per_bin := some [1, 1, 1, 1], volume_table := some vt4,
    cum_volume_table := some cum4, vol1 := 0 }

/-- A row with no volume table (the empty-cell sentinel). -/
def rowE : TableRow :=
  { id := 3, slice := ⟨0, 1, 0, 1⟩, extent := [], bin_edges := none,
    n_per_bin := none, volume_table := none, cum_volume_table := none }

/-! Helper lemmas about the embedded primitives. -/

lemma getD_map_range {α : Type} (f : ℕ → α) (d : α) {n k : ℕ} (hk : k < n) :
    ((List.range n).map f).getD k d = f k := by
  simp [List.getD_eq_get?, List.get?_map, List.get?_range, hk]

lemma pyIdx_natCast (l : List ℚ) (k : ℕ) : pyIdx l (k : ℤ) = l.getD k 0 := by
  unfold pyIdx
  rw [if_neg (by exact not_lt.mpr (Int.natCast_nonneg k)), Int.toNat_natCast]

lemma pyIdx_neg_one (l : List ℚ) : pyIdx l (-1) = l.getD (l.length - 1) 0 := by
  unfold pyIdx
  norm_num

lemma pyIdx_succ_sub_one (l : List ℚ) (k : ℕ) :
    pyIdx l (((k + 1 : ℕ) : ℤ) - 1) = l.getD k 0 := by
  have h : (((k + 1 : ℕ) : ℤ) - 1) = (k : ℤ) := by push_cast; ring
  rw [h, pyIdx_natCast]

lemma pyIdx_zero_sub_one (l : List ℚ) :
    pyIdx l (((0 : ℕ) : ℤ) - 1) = l.getD (l.length - 1) 0 := by
  have h : (((0 : ℕ) : ℤ) - 1) = (-1 : ℤ) := by norm_num
  rw [h, pyIdx_neg_one]

lemma pyIdx_cast_add_one (l : List ℚ) (k : ℕ) :
    pyIdx l ((k : ℤ) + 1) = l.getD (k + 1) 0 := by
  have h : ((k : ℤ) + 1) = ((k + 1 : ℕ) : ℤ) := by push_cast; ring
  rw [h, pyIdx_natCast]

lemma bisect_le_length (l : List ℚ) (x : ℚ) : bisect l x ≤ l.length :=
  List.countP_le_length _

lemma bisect_mono (l : List ℚ) {v w : ℚ} (h : v ≤ w) : bisect l v ≤ bisect l w := by
  induction l with
  | nil => simp [bisect]
  | cons a t ih =>
    simp only [bisect, List.countP_cons] at ih ⊢
    have hle : (if decide (a ≤ v) = true then 1 else 0) ≤
        (if decide (a ≤ w) = true then 1 else 0) := by
      by_cases hav : a ≤ v
      · simp [hav, le_trans hav h]
      · simp [hav]
    exact Nat.add_le_add ih hle

lemma lt_bisect_iff (l : List ℚ) (v : ℚ) :
    l.Sorted (· ≤ ·) → ∀ k, k < l.length → (k < bisect l v ↔ l.getD k 0 ≤ v) := by
  induction l with
  | nil =>
    intro _ k hk
    simp at hk
  | cons a t ih =>
    intro hs k hk
    rw [List.sorted_cons] at hs
    obtain ⟨ha, hst⟩ := hs
    cases k with
    | zero =>
      rw [List.getD_cons_zero]
      constructor
      · intro h0
        by_contra hav
        have hz : bisect (a :: t) v = 0 := by
          simp only [bisect]
          rw [List.countP_eq_zero]
          intro b hb
          rcases List.mem_cons.mp hb with rfl | hbt
          · simpa using hav
          · simp only [decide_eq_true_eq]
            intro hbv
            exact hav (le_trans (ha b hbt) hbv)
        omega
      · intro hav
        have : 0 < bisect (a :: t) v := by
          simp only [bisect]
          rw [List.countP_pos_iff]
          exact ⟨a, List.mem_cons_self a t, by simpa using hav⟩
        exact this
    | succ k =>
      have hk2 : k < t.length := by simpa using hk
      rw [List.getD_cons_succ, ← ih hst k hk2]
      simp only [bisect, List.countP_cons]
      by_cases hav : a ≤ v
      · simp [hav]
      · have hct : t.countP (fun b => decide (b ≤ v)) = 0 := by
          rw [List.countP_eq_zero]
          intro b hbt
          simp only [decide_eq_true_eq]
          intro hbv
          exact hav (le_trans (ha b hbt) hbv)
        simp only [bisect] at hct
        simp [hav, hct]

lemma sorted_getD_le (l : List ℚ) (hs : l.Sorted (· ≤ ·)) {i j : ℕ} (hij : i ≤ j)
    (hj : j < l.length) : l.getD i 0 ≤ l.getD j 0 := by
  rcases eq_or_lt_of_le hij with rfl | hlt
  · exact le_refl _
  · have hi : i < l.length := lt_trans hlt hj
    have h2 := List.pairwise_iff_get.mp hs ⟨i, hi⟩ ⟨j, hj⟩ hlt
    rw [List.getD_eq_getElem l 0 hi, List.getD_eq_getElem l 0 hj]
    simpa [List.get_eq_getElem] using h2

lemma cumsum_length (l : List ℚ) : (cumsum l).length = l.length := by
  simp [cumsum]

lemma cumsum_getD (l : List ℚ) {k : ℕ} (hk : k < l.length) :
    (cumsum l).getD k 0 = (l.take (k + 1)).sum := by
  unfold cumsum
  exact getD_map_range _ _ hk

lemma cumsum_succ_sub (l : List ℚ) {k : ℕ} (hk : k + 1 < l.length) :
    (cumsum l).getD (k + 1) 0 - (cumsum l).getD k 0 = l.getD (k + 1) 0 := by
  rw [cumsum_getD l hk, cumsum_getD l (lt_trans (Nat.lt_succ_self k) hk),
    List.sum_take_succ l (k + 1) hk, List.getD_eq_getElem l 0 hk]
  ring

lemma cumsum_mono (l : List ℚ) (h : ∀ x ∈ l, 0 ≤ x) {i j : ℕ} (hij : i ≤ j)
    (hj : j < l.length) : (cumsum l).getD i 0 ≤ (cumsum l).getD j 0 := by
  rw [cumsum_getD l (lt_of_le_of_lt hij hj), cumsum_getD l hj]
  have hsplit : l.take (j + 1) = l.take (i + 1) ++ (l.drop (i + 1)).take (j - i) := by
    rw [← List.take_add]
    congr 1
    omega
  rw [hsplit, List.sum_append]
  have hnn : 0 ≤ ((l.drop (i + 1)).take (j - i)).sum := by
    apply List.sum_nonneg
    intro x hx
    exact h x (List.drop_subset _ _ (List.take_subset _ _ hx))
  linarith

lemma cumsum_strict (l : List ℚ) (h : ∀ x ∈ l, 0 < x) {i j : ℕ} (hij : i < j)
    (hj : j < l.length) : (cumsum l).getD i 0 < (cumsum l).getD j 0 := by
  rw [cumsum_getD l (lt_trans hij hj), cumsum_getD l hj]
  have hsplit : l.take (j + 1) = l.take (i + 1) ++ (l.drop (i + 1)).take (j - i) := by
    rw [← List.take_add]
    congr 1
    omega
  rw [hsplit, List.sum_append]
  have hpos : 0 < ((l.drop (i + 1)).take (j - i)).sum := by
    apply List.sum_pos
    · intro x hx
      exact h x (List.drop_subset _ _ (List.take_subset _ _ hx))
    · intro hemp
      have hlen := congrArg List.length hemp
      rw [List.length_take, List.length_drop] at hlen
      simp at hlen
      omega
  linarith

lemma cumsum_sorted (l : List ℚ) (h : ∀ x ∈ l, 0 ≤ x) :
    (cumsum l).Sorted (· ≤ ·) := by
  rw [List.Sorted, List.pairwise_iff_get]
  intro i j hij
  have hj : (j : ℕ) < l.length := by
    have h1 := j.isLt
    have h2 := cumsum_length l
    omega
  have h2 := cumsum_mono l h (le_of_lt hij) hj
  rw [List.getD_eq_getElem _ 0 i.isLt, List.getD_eq_getElem _ 0 j.isLt] at h2
  simpa [List.get_eq_getElem] using h2

lemma solveLevel_flat (e vt cum : List ℚ) (v FA : ℚ)
    (h : cum.length - 1 ≤ bisect cum v) :
    solveLevel e vt cum v FA =
      e.getD (e.length - 1) 0 + (v - cum.getD (cum.length - 1) 0) / FA := by
  simp only [solveLevel]
  rw [if_pos h, pyIdx_neg_one, pyIdx_neg_one]

lemma solveLevel_interp (e vt cum : List ℚ) (v FA : ℚ)
    (h : ¬ (cum.length - 1 ≤ bisect cum v)) :
    solveLevel e vt cum v FA =
      e.getD (bisect cum v) 0 +
        ((v - pyIdx cum ((bisect cum v : ℤ) - 1)) / vt.getD (bisect cum v) 0) *
          (e.getD (bisect cum v + 1) 0 - e.getD (bisect cum v) 0) := by
  simp only [solveLevel]
  rw [if_neg h, pyIdx_natCast, pyIdx_natCast, pyIdx_cast_add_one]

lemma solveLevel_interp_zero (e vt cum : List ℚ) (v FA : ℚ)
    (hb : bisect cum v = 0) (h : ¬ (cum.length - 1 ≤ 0)) :
    solveLevel e vt cum v FA =
      e.getD 0 0 + ((v - cum.getD (cum.length - 1) 0) / vt.getD 0 0) *
        (e.getD 1 0 - e.getD 0 0) := by
  have h2 : ¬ (cum.length - 1 ≤ bisect cum v) := by rw [hb]; exact h
  rw [solveLevel_interp e vt cum v FA h2, hb, pyIdx_zero_sub_one]

lemma solveLevel_interp_succ (e vt cum : List ℚ) (v FA : ℚ) (k : ℕ)
    (hb : bisect cum v = k + 1) (h : ¬ (cum.length - 1 ≤ k + 1)) :
    solveLevel e vt cum v FA =
      e.getD (k + 1) 0 + ((v - cum.getD k 0) / vt.getD (k + 1) 0) *
        (e.getD (k + 2) 0 - e.getD (k + 1) 0) := by
  have h2 : ¬ (cum.length - 1 ≤ bisect cum v) := by rw [hb]; exact h
  rw [solveLevel_interp e vt cum v FA h2, hb, pyIdx_succ_sub_one]

/-- None-table rows short-circuit the solver (shared helper). -/
lemma subgrid_compute_none (row : TableRow) (dem : DemModel) (method : Method)
    (h : row.bin_edges = none) : subgrid_compute row dem method = none := by
  simp [subgrid_compute, h]

/-- getD of a mapped list at an in-range index (shared helper). -/
lemma getD_map_lt {α β : Type} (f : α → β) (l : List α) {k : ℕ} (hk : k < l.length)
    (d1 : β) (d2 : α) : (l.map f).getD k d1 = f (l.getD k d2) := by
  rw [List.getD_eq_getElem _ _ (by simpa using hk), List.getD_eq_getElem _ _ hk]
  simp

/-- Positivity of an in-range volume-table entry (shared helper). -/
lemma vt_getD_pos (vt : List ℚ) (hpos : ∀ x ∈ vt, 0 < x) {k : ℕ}
    (hk : k < vt.length) : 0 < vt.getD k 0 := by
  rw [List.getD_eq_getElem vt 0 hk]
  exact hpos _ (List.getElem_mem hk)

/-- Monotonicity of the level solve in the observed volume, for a table
satisfying the build invariants: cumulative table = running sum of a
positive volume table, nondecreasing bin edges (one more edge than
bins), positive window area, and the last bin volume bounded by window
area times last bin width (true of build_tables output, where the last
cumulative count equals the pixel count of the window).  The bound
holds across the interpolation branch, the flat branch, and the Python
negative-indexing quirk of bin 0. -/
lemma solveLevel_mono (e vt : List ℚ) (FA v1 v2 : ℚ)
    (hpos : ∀ x ∈ vt, 0 < x) (hn : 1 ≤ vt.length)
    (hel : e.length = vt.length + 1) (hes : e.Sorted (· ≤ ·))
    (hFA : 0 < FA)
    (hcap : vt.getD (vt.length - 1) 0 ≤
      FA * (e.getD vt.length 0 - e.getD (vt.length - 1) 0))
    (h12 : v1 ≤ v2) :
    solveLevel e vt (cumsum vt) v1 FA ≤ solveLevel e vt (cumsum vt) v2 FA := by
  set cum := cumsum vt with hcum
  have hcl : cum.length = vt.length := cumsum_length vt
  have hnn : ∀ x ∈ vt, 0 ≤ x := fun x hx => le_of_lt (hpos x hx)
  have hcs : cum.Sorted (· ≤ ·) := cumsum_sorted vt hnn
  -- upper bound of the interpolation branch by the next bin edge
  have hub : ∀ v : ℚ, ¬ (cum.length - 1 ≤ bisect cum v) →
      solveLevel e vt cum v FA ≤ e.getD (bisect cum v + 1) 0 := by
    intro v hcv
    have hkmax : bisect cum v < cum.length - 1 := by omega
    by_cases hz : bisect cum v = 0
    · rw [hz, solveLevel_interp_zero e vt cum v FA hz (by omega), zero_add]
      have hvt0 : 0 < vt.getD 0 0 := vt_getD_pos vt hpos (by omega)
      have hw : 0 ≤ e.getD 1 0 - e.getD 0 0 :=
        sub_nonneg.mpr (sorted_getD_le e hes (by omega) (by omega))
      have hv0 : ¬ (cum.getD 0 0 ≤ v) := by
        intro hcon
        have := (lt_bisect_iff cum v hcs 0 (by omega)).mpr hcon
        omega
      have hc0last : cum.getD 0 0 ≤ cum.getD (cum.length - 1) 0 :=
        sorted_getD_le cum hcs (by omega) (by omega)
      have hnum : v - cum.getD (cum.length - 1) 0 ≤ 0 := by
        have := not_le.mp hv0
        linarith
      have hvt0n : (0 : ℚ) ≤ vt.getD 0 0 := le_of_lt hvt0
      have hfr : (v - cum.getD (cum.length - 1) 0) / vt.getD 0 0 ≤ 0 := by
        rw [div_nonpos_iff]
        tauto
      have hm : (v - cum.getD (cum.length - 1) 0) / vt.getD 0 0 *
          (e.getD 1 0 - e.getD 0 0) ≤ 0 := by
        rw [mul_nonpos_iff]
        tauto
      linarith
    · obtain ⟨j, hbk⟩ : ∃ j, bisect cum v = j + 1 := ⟨bisect cum v - 1, by omega⟩
      rw [hbk, solveLevel_interp_succ e vt cum v FA j hbk (by omega)]
      have hj1 : j + 1 < vt.length := by omega
      have hvtk : 0 < vt.getD (j + 1) 0 := vt_getD_pos vt hpos hj1
      have hw : 0 ≤ e.getD (j + 2) 0 - e.getD (j + 1) 0 :=
        sub_nonneg.mpr (sorted_getD_le e hes (by omega) (by omega))
      have hvlt : ¬ (cum.getD (j + 1) 0 ≤ v) := by
        intro hcon
        have := (lt_bisect_iff cum v hcs (j + 1) (by omega)).mpr hcon
        omega
      have hsub : cum.getD (j + 1) 0 - cum.getD j 0 = vt.getD (j + 1) 0 := by
        rw [hcum]
        exact cumsum_succ_sub vt (by omega)
      have hnum : v - cum.getD j 0 ≤ vt.getD (j + 1) 0 := by
        have := not_le.mp hvlt
        linarith
      have hfr : (v - cum.getD j 0) / vt.getD (j + 1) 0 ≤ 1 :=
        (div_le_one hvtk).mpr hnum
      have hm := mul_le_mul_of_nonneg_right hfr hw
      rw [one_mul] at hm
      linarith
  -- lower bound of the interpolation branch by its own bin edge
  have hlb : ∀ v : ℚ, 1 ≤ bisect cum v → ¬ (cum.length - 1 ≤ bisect cum v) →
      e.getD (bisect cum v) 0 ≤ solveLevel e vt cum v FA := by
    intro v h1 hcv
    obtain ⟨j, hbk⟩ : ∃ j, bisect cum v = j + 1 := ⟨bisect cum v - 1, by omega⟩
    rw [hbk, solveLevel_interp_succ e vt cum v FA j hbk (by omega)]
    have hvge : cum.getD j 0 ≤ v :=
      (lt_bisect_iff cum v hcs j (by omega)).mp (by omega)
    have hvtk : 0 < vt.getD (j + 1) 0 := vt_getD_pos vt hpos (by omega)
    have hw : 0 ≤ e.getD (j + 2) 0 - e.getD (j + 1) 0 :=
      sub_nonneg.mpr (sorted_getD_le e hes (by omega) (by omega))
    have hfr : 0 ≤ (v - cum.getD j 0) / vt.getD (j + 1) 0 :=
      div_nonneg (by linarith) (le_of_lt hvtk)
    have hm : 0 ≤ (v - cum.getD j 0) / vt.getD (j + 1) 0 *
        (e.getD (j + 2) 0 - e.getD (j + 1) 0) := mul_nonneg hfr hw
    linarith
  -- lower bound of the flat branch by the second-to-last bin edge
  have hfb : ∀ v : ℚ, 2 ≤ vt.length → cum.length - 1 ≤ bisect cum v →
      e.getD (vt.length - 1) 0 ≤ solveLevel e vt cum v FA := by
    intro v hn2 hcv
    rw [solveLevel_flat e vt cum v FA hcv]
    have hble := bisect_le_length cum v
    have hvge : cum.getD (vt.length - 2) 0 ≤ v :=
      (lt_bisect_iff cum v hcs (vt.length - 2) (by omega)).mp (by omega)
    have hsub : cum.getD (vt.length - 1) 0 - cum.getD (vt.length - 2) 0 =
        vt.getD (vt.length - 1) 0 := by
      have h2 : (vt.length - 2) + 1 = vt.length - 1 := by omega
      rw [hcum, ← h2]
      exact cumsum_succ_sub vt (by omega)
    have hdiv : vt.getD (vt.length - 1) 0 / FA ≤
        e.getD vt.length 0 - e.getD (vt.length - 1) 0 := by
      rw [div_le_iff hFA]
      linarith
    have hEl : e.length - 1 = vt.length := by omega
    have hclen : cum.length - 1 = vt.length - 1 := by omega
    rw [hEl, hclen]
    have hmono : (cum.getD (vt.length - 2) 0 - cum.getD (vt.length - 1) 0) / FA ≤
        (v - cum.getD (vt.length - 1) 0) / FA :=
      (div_le_div_right hFA).mpr (by linarith)
    have h5 : (cum.getD (vt.length - 2) 0 - cum.getD (vt.length - 1) 0) / FA =
        -(vt.getD (vt.length - 1) 0 / FA) := by
      rw [show cum.getD (vt.length - 2) 0 - cum.getD (vt.length - 1) 0 =
        -(vt.getD (vt.length - 1) 0) by linarith, neg_div]
    linarith
  by_cases hc1 : cum.length - 1 ≤ bisect cum v1
  · have hc2 : cum.length - 1 ≤ bisect cum v2 := le_trans hc1 (bisect_mono cum h12)
    rw [solveLevel_flat e vt cum v1 FA hc1, solveLevel_flat e vt cum v2 FA hc2]
    have hd : (v1 - cum.getD (cum.length - 1) 0) / FA ≤
        (v2 - cum.getD (cum.length - 1) 0) / FA :=
      (div_le_div_right hFA).mpr (by linarith)
    linarith
  · by_cases hc2 : cum.length - 1 ≤ bisect cum v2
    · have hn2 : 2 ≤ vt.length := by omega
      calc solveLevel e vt cum v1 FA ≤ e.getD (bisect cum v1 + 1) 0 := hub v1 hc1
        _ ≤ e.getD (vt.length - 1) 0 := sorted_getD_le e hes (by omega) (by omega)
        _ ≤ solveLevel e vt cum v2 FA := hfb v2 hn2 hc2
    · have hkle : bisect cum v1 ≤ bisect cum v2 := bisect_mono cum h12
      rcases eq_or_lt_of_le hkle with heq | hlt
      · by_cases hz : bisect cum v1 = 0
        · rw [solveLevel_interp_zero e vt cum v1 FA hz (by omega),
            solveLevel_interp_zero e vt cum v2 FA (by omega) (by omega)]
          have hvt0 : 0 < vt.getD 0 0 := vt_getD_pos vt hpos (by omega)
          have hw : 0 ≤ e.getD 1 0 - e.getD 0 0 :=
            sub_nonneg.mpr (sorted_getD_le e hes (by omega) (by omega))
          have hfr : (v1 - cum.getD (cum.length - 1) 0) / vt.getD 0 0 ≤
              (v2 - cum.getD (cum.length - 1) 0) / vt.getD 0 0 :=
            (div_le_div_right hvt0).mpr (by linarith)
          have := mul_le_mul_of_nonneg_right hfr hw
          linarith
        · obtain ⟨j, hbk⟩ : ∃ j, bisect cum v1 = j + 1 := ⟨bisect cum v1 - 1, by omega⟩
          have hbk2 : bisect cum v2 = j + 1 := by omega
          rw [solveLevel_interp_succ e vt cum v1 FA j hbk (by omega),
            solveLevel_interp_succ e vt cum v2 FA j hbk2 (by omega)]
          have hvtk : 0 < vt.getD (j + 1) 0 := vt_getD_pos vt hpos (by omega)
          have hw : 0 ≤ e.getD (j + 2) 0 - e.getD (j + 1) 0 :=
            sub_nonneg.mpr (sorted_getD_le e hes (by omega) (by omega))
          have hfr : (v1 - cum.getD j 0) / vt.getD (j + 1) 0 ≤
              (v2 - cum.getD j 0) / vt.getD (j + 1) 0 :=
            (div_le_div_right hvtk).mpr (by linarith)
          have := mul_le_mul_of_nonneg_right hfr hw
          linarith
      · calc solveLevel e vt cum v1 FA ≤ e.getD (bisect cum v1 + 1) 0 := hub v1 hc1
          _ ≤ e.getD (bisect cum v2) 0 := sorted_getD_le e hes (by omega) (by omega)
          _ ≤ solveLevel e vt cum v2 FA := hlb v2 (by omega) hc2

/-- The running sum of the scenario volume table is the scenario
cumulative table (shared helper for witnesses). -/
lemma cumsum_vt4 : cumsum vt4 = cum4 := by
  show [(vt4.take 1).sum, (vt4.take 2).sum, (vt4.take 3).sum, (vt4.take 4).sum] = cum4
  norm_num [vt4, cum4]

/-- C1: on the spec scenario (bin edges [0,1,2,3,4], cumulative volumes
[10,25,45,70], observed volume 30) the solver interpolates to level 9/4
as claimed; but for bisection index k = 0 (observed volume 5) the code
reads cum_volume_table[-1] = 70 through Python negative indexing and
returns level -13/2, while the claim (cum_volume_table[k-1] taken as 0
when k = 0) requires level 0 + (5 - 0)/10 * (1 - 0) = 1/2.  This
evaluates the code at the failing input. -/
theorem C1_interpolation_negative_index :
    solveLevel edges4 vt4 cum4 30 5 = 9 / 4 ∧
    solveLevel edges4 vt4 cum4 5 5 = -13 / 2 ∧
    ((0 : ℚ) + (5 - 0) / 10 * (1 - 0) = 1 / 2) ∧ ((-13 / 2 : ℚ) ≠ 1 / 2) := by
  refine ⟨?_, ?_, by norm_num, by norm_num⟩
  · rw [solveLevel_interp_succ edges4 vt4 cum4 30 5 1
      (by norm_num [bisect, cum4, List.countP_cons, List.countP_nil])
      (by norm_num [cum4])]
    show (2 : ℚ) + (30 - 25) / 20 * (3 - 2) = 9 / 4
    norm_num
  · rw [solveLevel_interp_zero edges4 vt4 cum4 5 5
      (by norm_num [bisect, cum4, List.countP_cons, List.countP_nil])
      (by norm_num [cum4])]
    show (0 : ℚ) + (5 - 70) / 10 * (1 - 0) = -13 / 2
    norm_num

/-- C2 counterexample: at observed volume 50 against cumulative volumes
[10,25,45,70] (window area 5) the solver takes the flat-extrapolation
branch and returns level 4 + (50 - 70)/5 = 0 even though 50 does not
exceed the histogrammed capacity 70; the claim predicts in-bin
interpolation 3 + (50 - 45)/25 * (4 - 3) = 16/5 there, so the branch is
not taken exactly when the capacity is exceeded. -/
theorem C2_flat_branch_counterexample :
    solveLevel edges4 vt4 cum4 50 5 = 0 ∧
    ¬ ((50 : ℚ) > 70) ∧
    ((3 : ℚ) + (50 - 45) / 25 * (4 - 3) = 16 / 5) ∧ ((0 : ℚ) ≠ 16 / 5) := by
  refine ⟨?_, by norm_num, by norm_num, by norm_num⟩
  rw [solveLevel_flat edges4 vt4 cum4 50 5
    (by norm_num [bisect, cum4, List.countP_cons, List.countP_nil])]
  show (4 : ℚ) + (50 - 70) / 5 = 0
  norm_num

/-- C2 amended: for a sorted cumulative table with at least two
entries, the solver takes the flat-extrapolation branch
level = highest_bin_edge + (observed - last_cumulative)/window_area
exactly when the bisection index is at least len(cum) - 1, that is
exactly when the observed volume reaches the SECOND-TO-LAST cumulative
volume (the branch already covers the last bin, not only true
overflow); the overflow scenario itself (volume 100, capacity 70,
window area 5) still yields level 10. -/
theorem C2_flat_branch_amended (e vt cum : List ℚ) (v FA : ℚ)
    (hs : cum.Sorted (· ≤ ·)) (hn : 2 ≤ cum.length) :
    ((cum.length - 1 ≤ bisect cum v) ↔ cum.getD (cum.length - 2) 0 ≤ v) ∧
    (cum.getD (cum.length - 2) 0 ≤ v →
      solveLevel e vt cum v FA =
        e.getD (e.length - 1) 0 + (v - cum.getD (cum.length - 1) 0) / FA) ∧
    solveLevel edges4 vt4 cum4 100 5 = 10 := by
  have h1 := lt_bisect_iff cum v hs (cum.length - 2) (by omega)
  have hiff : (cum.length - 1 ≤ bisect cum v) ↔ (cum.length - 2 < bisect cum v) := by
    omega
  refine ⟨hiff.trans h1, ?_, ?_⟩
  · intro hv
    exact solveLevel_flat e vt cum v FA (hiff.mpr (h1.mpr hv))
  · rw [solveLevel_flat edges4 vt4 cum4 100 5
      (by norm_num [bisect, cum4, List.countP_cons, List.countP_nil])]
    show (4 : ℚ) + (100 - 70) / 5 = 10
    norm_num

/-- C2 amended witness: the amended branch characterisation applied to
the concrete scenario table at observed volume 100. -/
theorem C2_flat_branch_amended_witness :
    cum4.Sorted (· ≤ ·) ∧ 2 ≤ cum4.length ∧
    (((cum4.length - 1 ≤ bisect cum4 100) ↔ cum4.getD (cum4.length - 2) 0 ≤ 100) ∧
     (cum4.getD (cum4.length - 2) 0 ≤ 100 →
       solveLevel edges4 vt4 cum4 100 5 =
         edges4.getD (edges4.length - 1) 0 + (100 - cum4.getD (cum4.length - 1) 0) / 5) ∧
     solveLevel edges4 vt4 cum4 100 5 = 10) :=
  ⟨by constructor <;> norm_num [cum4, List.sorted_cons],
   by norm_num [cum4],
   C2_flat_branch_amended edges4 vt4 cum4 100 5
     (by constructor <;> norm_num [cum4, List.sorted_cons]) (by norm_num [cum4])⟩

/-- C6: for any row with a table present, the waterdepth result is the
per-pixel relu max(level - elevation, 0) over the window: it exists,
has the window's length, is nonnegative everywhere, and vanishes at a
pixel exactly when the terrain elevation there is at least the solved
level. -/
theorem C6_waterdepth_relu (row : TableRow) (dem : DemModel) (e : List ℚ)
    (hbe : row.bin_edges = some e) :
    ∃ d : List ℚ,
      subgrid_compute row dem Method.waterdepth = some (SolveResult.depth d) ∧
      d.length = row.slice.pixels.length ∧
      ∀ k, k < d.length →
        (d.getD k 0 =
           max (rowLevel row dem e - (row.slice.pixels.map dem.band).getD k 0) 0 ∧
         0 ≤ d.getD k 0 ∧
         (d.getD k 0 = 0 ↔
           rowLevel row dem e ≤ (row.slice.pixels.map dem.band).getD k 0)) := by
  refine ⟨(row.slice.pixels.map dem.band).map
    (fun z => if z < rowLevel row dem e then rowLevel row dem e - z else 0),
    ?_, by simp, ?_⟩
  · simp [subgrid_compute, hbe]
  · intro k hk
    simp only [List.length_map] at hk
    have hk2 : k < (row.slice.pixels.map dem.band).length := by simpa using hk
    rw [getD_map_lt _ _ hk2 0 0]
    set z := (row.slice.pixels.map dem.band).getD k 0 with hz
    set L := rowLevel row dem e with hL
    by_cases hzL : z < L
    · rw [if_pos hzL]
      have hpos : 0 < L - z := sub_pos.mpr hzL
      refine ⟨(max_eq_left (le_of_lt hpos)).symm, le_of_lt hpos, ?_⟩
      constructor
      · intro h0
        exact absurd h0 (ne_of_gt hpos)
      · intro hLe
        exact absurd hLe (not_le.mpr hzL)
    · rw [if_neg hzL]
      have hLe : L ≤ z := not_lt.mp hzL
      refine ⟨?_, le_refl 0, ?_⟩
      · rw [max_eq_right (sub_nonpos.mpr hLe)]
      · simp [hLe]

/-- C6 witness: the relu property instantiated on the scenario table
over a 1 x 2 window of the two-valued terrain raster. -/
theorem C6_waterdepth_relu_witness :
    rowTab.bin_edges = some edges4 ∧
    (∃ d : List ℚ,
      subgrid_compute rowTab demTer Method.waterdepth = some (SolveResult.depth d) ∧
      d.length = rowTab.slice.pixels.length ∧
      ∀ k, k < d.length →
        (d.getD k 0 =
           max (rowLevel rowTab demTer edges4 -
             (rowTab.slice.pixels.map demTer.band).getD k 0) 0 ∧
         0 ≤ d.getD k 0 ∧
         (d.getD k 0 = 0 ↔
           rowLevel rowTab demTer edges4 ≤
             (rowTab.slice.pixels.map demTer.band).getD k 0))) :=
  ⟨rfl, C6_waterdepth_relu rowTab demTer edges4 rfl⟩

/-- C10: a row whose bin_edges field is None makes subgrid_compute
return None for every method and every terrain raster (the raster is
never consulted), rather than raising. -/
theorem C10_empty_table_returns_none (row : TableRow) (dem : DemModel)
    (method : Method) (h : row.bin_edges = none) :
    subgrid_compute row dem method = none := by
  simp [subgrid_compute, h]

/-- C10 witness: the empty row under both methods on a concrete
raster. -/
theorem C10_empty_table_returns_none_witness :
    rowE.bin_edges = none ∧
    subgrid_compute rowE demC Method.waterlevel = none ∧
    subgrid_compute rowE demC Method.waterdepth = none :=
  ⟨rfl, C10_empty_table_returns_none rowE demC Method.waterlevel rfl,
   C10_empty_table_returns_none rowE demC Method.waterdepth rfl⟩

/-- C3: for a fixed table satisfying the build invariants (cumulative
table = running sum of a positive volume table, nondecreasing bin edges
with one more edge than bins, positive window area, last bin volume at
most window area times last bin width), the waterlevel returned by
subgrid_compute is monotonically nondecreasing in the observed volume
vol1, across the interpolation and flat-extrapolation branches. -/
theorem C3_waterlevel_monotone (dem : DemModel) (row : TableRow) (e vt : List ℚ)
    (hbe : row.bin_edges = some e) (hvt : row.volume_table = some vt)
    (hcum : row.cum_volume_table = some (cumsum vt))
    (hpos : ∀ x ∈ vt, 0 < x) (hn : 1 ≤ vt.length)
    (hel : e.length = vt.length + 1) (hes : e.Sorted (· ≤ ·))
    (hFA : 0 < rowFaceArea row dem)
    (hcap : vt.getD (vt.length - 1) 0 ≤
      rowFaceArea row dem * (e.getD vt.length 0 - e.getD (vt.length - 1) 0))
    (v1 v2 : ℚ) (h12 : v1 ≤ v2) :
    ∀ x1 x2 : ℚ,
      subgrid_compute { row with vol1 := v1 } dem Method.waterlevel =
        some (SolveResult.level x1) →
      subgrid_compute { row with vol1 := v2 } dem Method.waterlevel =
        some (SolveResult.level x2) →
      x1 ≤ x2 := by
  intro x1 x2 h1 h2
  have hs1 : subgrid_compute { row with vol1 := v1 } dem Method.waterlevel =
      some (SolveResult.level (solveLevel e vt (cumsum vt) v1 (rowFaceArea row dem))) := by
    simp [subgrid_compute, hbe, rowLevel, hvt, hcum, rowFaceArea]
  have hs2 : subgrid_compute { row with vol1 := v2 } dem Method.waterlevel =
      some (SolveResult.level (solveLevel e vt (cumsum vt) v2 (rowFaceArea row dem))) := by
    simp [subgrid_compute, hbe, rowLevel, hvt, hcum, rowFaceArea]
  rw [hs1] at h1
  rw [hs2] at h2
  simp only [Option.some.injEq, SolveResult.level.injEq] at h1 h2
  rw [← h1, ← h2]
  exact solveLevel_mono e vt (rowFaceArea row dem) v1 v2 hpos hn hel hes hFA hcap h12


/-- C3 witness: monotonicity instantiated on the scenario table over a
5 x 5 window at observed volumes 5 and 100. -/
theorem C3_waterlevel_monotone_witness :
    rowMono.bin_edges = some edges4 ∧ rowMono.volume_table = some vt4 ∧
    rowMono.cum_volume_table = some (cumsum vt4) ∧ (∀ x ∈ vt4, 0 < x) ∧
    1 ≤ vt4.length ∧ edges4.length = vt4.length + 1 ∧ edges4.Sorted (· ≤ ·) ∧
    0 < rowFaceArea rowMono demC ∧
    vt4.getD (vt4.length - 1) 0 ≤
      rowFaceArea rowMono demC *
        (edges4.getD vt4.length 0 - edges4.getD (vt4.length - 1) 0) ∧
    ((5 : ℚ) ≤ 100) ∧
    (∀ x1 x2 : ℚ,
      subgrid_compute { rowMono with vol1 := 5 } demC Method.waterlevel =
        some (SolveResult.level x1) →
      subgrid_compute { rowMono with vol1 := 100 } demC Method.waterlevel =
        some (SolveResult.level x2) →
      x1 ≤ x2) :=
  ⟨rfl, rfl, by rw [cumsum_vt4]; rfl,
   by intro x hx; simp [vt4] at hx; rcases hx with rfl | rfl | rfl | rfl <;> norm_num,
   by norm_num [vt4], by norm_num [edges4, vt4],
   by norm_num [edges4, List.sorted_cons],
   by norm_num [rowFaceArea, rowMono, demC],
   by show (25 : ℚ) ≤ (((5 - 0) * (5 - 0) : ℕ) : ℚ) * (1 * 1) * (4 - 3); norm_num,
   by norm_num,
   C3_waterlevel_monotone demC rowMono edges4 vt4 rfl rfl (by rw [cumsum_vt4]; rfl)
     (by intro x hx; simp [vt4] at hx; rcases hx with rfl | rfl | rfl | rfl <;> norm_num)
     (by norm_num [vt4]) (by norm_num [edges4, vt4])
     (by norm_num [edges4, List.sorted_cons])
     (by norm_num [rowFaceArea, rowMono, demC])
     (by show (25 : ℚ) ≤ (((5 - 0) * (5 - 0) : ℕ) : ℚ) * (1 * 1) * (4 - 3); norm_num)
     5 100 (by norm_num)⟩

lemma foldl_min_le_init (z : ℚ) (xs : List ℚ) : xs.foldl min z ≤ z := by
  induction xs generalizing z with
  | nil => exact le_refl z
  | cons a t ih => exact le_trans (ih (min z a)) (min_le_left z a)

lemma le_foldl_max_init (z : ℚ) (xs : List ℚ) : z ≤ xs.foldl max z := by
  induction xs generalizing z with
  | nil => exact le_refl z
  | cons a t ih => exact le_trans (le_max_left z a) (ih (max z a))

lemma foldl_min_le (x : ℚ) (xs : List ℚ) : ∀ y ∈ x :: xs, xs.foldl min x ≤ y := by
  induction xs generalizing x with
  | nil =>
    intro y hy
    simp at hy
    subst hy
    exact le_refl y
  | cons a t ih =>
    intro y hy
    rcases List.mem_cons.mp hy with rfl | hy2
    · exact le_trans (foldl_min_le_init (min y a) t) (min_le_left y a)
    · rcases List.mem_cons.mp hy2 with rfl | hy3
      · exact le_trans (foldl_min_le_init (min x y) t) (min_le_right x y)
      · exact ih (min x a) y (List.mem_cons_of_mem _ hy3)

lemma le_foldl_max (x : ℚ) (xs : List ℚ) : ∀ y ∈ x :: xs, y ≤ xs.foldl max x := by
  induction xs generalizing x with
  | nil =>
    intro y hy
    simp at hy
    subst hy
    exact le_refl y
  | cons a t ih =>
    intro y hy
    rcases List.mem_cons.mp hy with rfl | hy2
    · exact le_trans (le_max_left y a) (le_foldl_max_init (max y a) t)
    · rcases List.mem_cons.mp hy2 with rfl | hy3
      · exact le_trans (le_max_right x y) (le_foldl_max_init (max x y) t)
      · exact ih (max x a) y (List.mem_cons_of_mem _ hy3)

lemma foldl_min_mem (x : ℚ) (xs : List ℚ) : xs.foldl min x ∈ x :: xs := by
  induction xs generalizing x with
  | nil => simp
  | cons a t ih =>
    rw [List.foldl_cons]
    rcases List.mem_cons.mp (ih (min x a)) with heq | hmem
    · rw [heq]
      rcases min_choice x a with h1 | h1 <;> rw [h1] <;> simp
    · exact List.mem_cons_of_mem x (List.mem_cons_of_mem a hmem)

lemma histRange_le (data : List ℚ) : (histRange data).1 ≤ (histRange data).2 := by
  cases data with
  | nil => norm_num [histRange]
  | cons x xs =>
    by_cases he : xs.foldl min x = xs.foldl max x
    · simp [histRange, he]
      linarith
    · simp [histRange, he]
      exact le_trans (foldl_min_le x xs x (List.mem_cons_self x xs))
        (le_foldl_max x xs x (List.mem_cons_self x xs))

lemma histEdges_getD (lo hi : ℚ) {k : ℕ} (hk : k < 21) :
    (histEdges lo hi).getD k 0 = lo + (hi - lo) * (k : ℚ) / 20 := by
  unfold histEdges
  exact getD_map_range _ _ hk

lemma histEdges_diff (lo hi : ℚ) {k : ℕ} (hk : k < 20) :
    (histEdges lo hi).getD (k + 1) 0 - (histEdges lo hi).getD k 0 = (hi - lo) / 20 := by
  rw [histEdges_getD lo hi (by omega), histEdges_getD lo hi (by omega)]
  push_cast
  ring

lemma histCounts_length (data : List ℚ) (lo hi : ℚ) :
    (histCounts data lo hi).length = 20 := by
  simp [histCounts]

lemma histCounts_getD (data : List ℚ) (lo hi : ℚ) {k : ℕ} (hk : k < 20)
    (hk19 : k ≠ 19) :
    (histCounts data lo hi).getD k 0 =
      data.countP (fun z => decide (lo + (hi - lo) * (k : ℚ) / 20 ≤ z) &&
        decide (z < lo + (hi - lo) * ((k : ℚ) + 1) / 20)) := by
  unfold histCounts
  rw [getD_map_range _ _ hk, if_neg hk19]

lemma cumsumN_getD (l : List ℕ) {k : ℕ} (hk : k < l.length) :
    (cumsumN l).getD k 0 = (l.take (k + 1)).sum := by
  unfold cumsumN
  exact getD_map_range _ _ hk

lemma take_sum_ge_head (l : List ℕ) (k : ℕ) (hl : l ≠ []) :
    l.getD 0 0 ≤ (l.take (k + 1)).sum := by
  cases l with
  | nil => simp at hl
  | cons a t =>
    rw [List.take_succ_cons, List.sum_cons, List.getD_cons_zero]
    exact Nat.le_add_right a _

lemma sum_take_one (l : List ℚ) (h : 0 < l.length) : (l.take 1).sum = l.getD 0 0 := by
  rw [show (1 : ℕ) = 0 + 1 from rfl, List.sum_take_succ l 0 h,
    List.getD_eq_getElem l 0 h]
  simp


lemma buildVolumeTable_length (dem : DemModel) (cell : Cell) :
    (buildVolumeTable dem cell).length = 20 := by
  simp [buildVolumeTable]

lemma buildVolumeTable_nonneg (dem : DemModel) (cell : Cell)
    (hA : 0 ≤ dem.pixelArea) : ∀ x ∈ buildVolumeTable dem cell, 0 ≤ x := by
  intro x hx
  simp only [buildVolumeTable, List.mem_map, List.mem_range] at hx
  obtain ⟨k, hk, rfl⟩ := hx
  have hd : (buildEdges dem cell).getD (k + 1) 0 - (buildEdges dem cell).getD k 0 =
      ((histRange (buildData dem cell)).2 - (histRange (buildData dem cell)).1) / 20 := by
    unfold buildEdges
    exact histEdges_diff _ _ hk
  rw [hd]
  have hle := histRange_le (buildData dem cell)
  have hw : (0 : ℚ) ≤
      ((histRange (buildData dem cell)).2 - (histRange (buildData dem cell)).1) / 20 := by
    apply div_nonneg (by linarith) (by norm_num)
  exact mul_nonneg (mul_nonneg hA (by positivity)) hw

lemma buildVolumeTable_pos (dem : DemModel) (cell : Cell)
    (hA : 0 < dem.pixelArea)
    (hdist : ∃ a ∈ buildData dem cell, ∃ b ∈ buildData dem cell, a ≠ b) :
    ∀ x ∈ buildVolumeTable dem cell, 0 < x := by
  obtain ⟨a, ha, b, hb, hab⟩ := hdist
  rcases hd : buildData dem cell with _ | ⟨x, xs⟩
  · rw [hd] at ha
    simp at ha
  · rw [hd] at ha hb
    have h1 : xs.foldl min x ≤ a := foldl_min_le x xs a ha
    have h2 : a ≤ xs.foldl max x := le_foldl_max x xs a ha
    have h3 : xs.foldl min x ≤ b := foldl_min_le x xs b hb
    have h4 : b ≤ xs.foldl max x := le_foldl_max x xs b hb
    have hmnmx : xs.foldl min x < xs.foldl max x := by
      rcases lt_or_le (xs.foldl min x) (xs.foldl max x) with h | h
      · exact h
      · exact absurd (le_antisymm (by linarith) (by linarith) : a = b) hab
    have hrange : histRange (buildData dem cell) = (xs.foldl min x, xs.foldl max x) := by
      rw [hd]
      simp [histRange, ne_of_lt hmnmx]
    have hcount0 : 1 ≤ (buildCounts dem cell).getD 0 0 := by
      unfold buildCounts
      rw [hrange, hd]
      dsimp only
      rw [histCounts_getD _ _ _ (by norm_num) (by norm_num)]
      have hpos : 0 < List.countP
          (fun z => decide (xs.foldl min x + (xs.foldl max x - xs.foldl min x) * ((0 : ℕ) : ℚ) / 20 ≤ z) &&
            decide (z < xs.foldl min x + (xs.foldl max x - xs.foldl min x) * (((0 : ℕ) : ℚ) + 1) / 20))
          (x :: xs) := by
        rw [List.countP_pos_iff]
        refine ⟨xs.foldl min x, foldl_min_mem x xs, ?_⟩
        simp only [Bool.and_eq_true, decide_eq_true_eq]
        constructor
        · push_cast
          linarith
        · push_cast
          have h20 : (0 : ℚ) < (xs.foldl max x - xs.foldl min x) / 20 := by
            apply div_pos (by linarith) (by norm_num)
          have h21 : (xs.foldl max x - xs.foldl min x) * (0 + 1) / 20 =
              (xs.foldl max x - xs.foldl min x) / 20 := by ring
          linarith [h20, h21]
      omega
    intro y hy
    simp only [buildVolumeTable, List.mem_map, List.mem_range] at hy
    obtain ⟨k, hk, rfl⟩ := hy
    have hclen : (buildCounts dem cell).length = 20 := by
      unfold buildCounts
      exact histCounts_length _ _ _
    have hncum : 1 ≤ (cumsumN (buildCounts dem cell)).getD k 0 := by
      rw [cumsumN_getD _ (by omega)]
      exact le_trans hcount0 (take_sum_ge_head _ k (by
        intro hemp
        rw [hemp] at hclen
        simp at hclen))
    have hdiff : (buildEdges dem cell).getD (k + 1) 0 - (buildEdges dem cell).getD k 0 =
        ((histRange (buildData dem cell)).2 - (histRange (buildData dem cell)).1) / 20 := by
      unfold buildEdges
      exact histEdges_diff _ _ hk
    rw [hdiff, hrange]
    dsimp only
    have hwpos : (0 : ℚ) < (xs.foldl max x - xs.foldl min x) / 20 := by
      apply div_pos (by linarith) (by norm_num)
    have hcast : (0 : ℚ) < (((cumsumN (buildCounts dem cell)).getD k 0 : ℕ) : ℚ) := by
      exact_mod_cast hncum
    exact mul_pos (mul_pos hA hcast) hwpos


lemma sum_take_two (l : List ℚ) (h : 1 < l.length) :
    (l.take 2).sum = l.getD 0 0 + l.getD 1 0 := by
  rw [show (2 : ℕ) = 1 + 1 from rfl, List.sum_take_succ l 1 h,
    sum_take_one l (by omega), List.getD_eq_getElem l 0 h]

lemma sum_take_oneN (l : List ℕ) (h : 0 < l.length) : (l.take 1).sum = l.getD 0 0 := by
  rw [show (1 : ℕ) = 0 + 1 from rfl, List.sum_take_succ l 0 h,
    List.getD_eq_getElem l 0 h]
  simp

lemma sum_take_twoN (l : List ℕ) (h : 1 < l.length) :
    (l.take 2).sum = l.getD 0 0 + l.getD 1 0 := by
  rw [show (2 : ℕ) = 1 + 1 from rfl, List.sum_take_succ l 1 h,
    sum_take_oneN l (by omega), List.getD_eq_getElem l 0 h]

/-- C7: for every valid (unmasked) cell, cum_volume_table is the
running sum of volume_table: entry k equals the sum of
volume_table[0..k] and the last entry equals the total sum; the table
is nondecreasing, and it is strictly increasing whenever the window
holds two distinct elevations.  (For a constant-elevation window the
leading bins have zero volume, so consecutive entries repeat and
strict increase fails; see the counterexample.) -/
theorem C7_cumulative_table_invariants (dem : DemModel) (id_ : ℕ) (cell : Cell)
    (hnm : cell.window.pixels.any dem.mask = false) (hA : 0 < dem.pixelArea) :
    (buildRow dem id_ cell).bin_edges ≠ none ∧
    (buildRow dem id_ cell).volume_table = some (buildVolumeTable dem cell) ∧
    (buildRow dem id_ cell).cum_volume_table =
      some (cumsum (buildVolumeTable dem cell)) ∧
    (cumsum (buildVolumeTable dem cell)).length = (buildVolumeTable dem cell).length ∧
    (∀ k, k < (buildVolumeTable dem cell).length →
      (cumsum (buildVolumeTable dem cell)).getD k 0 =
        ((buildVolumeTable dem cell).take (k + 1)).sum) ∧
    (cumsum (buildVolumeTable dem cell)).getD
        ((buildVolumeTable dem cell).length - 1) 0 = (buildVolumeTable dem cell).sum ∧
    (∀ i j, i ≤ j → j < (buildVolumeTable dem cell).length →
      (cumsum (buildVolumeTable dem cell)).getD i 0 ≤
        (cumsum (buildVolumeTable dem cell)).getD j 0) ∧
    ((∃ a ∈ buildData dem cell, ∃ b ∈ buildData dem cell, a ≠ b) →
      ∀ i j, i < j → j < (buildVolumeTable dem cell).length →
        (cumsum (buildVolumeTable dem cell)).getD i 0 <
          (cumsum (buildVolumeTable dem cell)).getD j 0) := by
  refine ⟨by simp [buildRow, hnm], by simp [buildRow, hnm], by simp [buildRow, hnm],
    cumsum_length _, ?_, ?_, ?_, ?_⟩
  · intro k hk
    exact cumsum_getD _ hk
  · have hl : 0 < (buildVolumeTable dem cell).length := by
      rw [buildVolumeTable_length]
      norm_num
    rw [cumsum_getD _ (by omega)]
    rw [show (buildVolumeTable dem cell).length - 1 + 1 =
      (buildVolumeTable dem cell).length by omega]
    rw [List.take_length]
  · intro i j hij hj
    exact cumsum_mono _ (buildVolumeTable_nonneg dem cell (le_of_lt hA)) hij hj
  · intro hdist i j hij hj
    exact cumsum_strict _ (buildVolumeTable_pos dem cell hA hdist) hij hj

/-- C7 counterexample: a constant-elevation 1 x 2 window (all pixels
at elevation 3) produces a valid table whose cumulative volume table is
NOT strictly increasing: its first two entries are equal (the data
falls in bin 10, so bins 0..9 have zero volume). -/
theorem C7_strict_counterexample :
    (buildRow demConst3 0 cellU2).bin_edges ≠ none ∧
    (buildRow demConst3 0 cellU2).cum_volume_table =
      some (cumsum (buildVolumeTable demConst3 cellU2)) ∧
    20 ≤ (cumsum (buildVolumeTable demConst3 cellU2)).length ∧
    (cumsum (buildVolumeTable demConst3 cellU2)).getD 0 0 =
      (cumsum (buildVolumeTable demConst3 cellU2)).getD 1 0 := by
  have hdata : buildData demConst3 cellU2 = [3, 3] := rfl
  have hrange : histRange (buildData demConst3 cellU2) = (5 / 2, 7 / 2) := by
    rw [hdata]
    norm_num [histRange]
  have hvl : (buildVolumeTable demConst3 cellU2).length = 20 :=
    buildVolumeTable_length _ _
  have hclen : (buildCounts demConst3 cellU2).length = 20 := by
    unfold buildCounts
    exact histCounts_length _ _ _
  have hc0 : (buildCounts demConst3 cellU2).getD 0 0 = 0 := by
    unfold buildCounts
    rw [hrange, hdata]
    dsimp only
    rw [histCounts_getD _ _ _ (by norm_num) (by norm_num)]
    norm_num [List.countP_cons, List.countP_nil]
  have hc1 : (buildCounts demConst3 cellU2).getD 1 0 = 0 := by
    unfold buildCounts
    rw [hrange, hdata]
    dsimp only
    rw [histCounts_getD _ _ _ (by norm_num) (by norm_num)]
    norm_num [List.countP_cons, List.countP_nil]
  have hvt0 : (buildVolumeTable demConst3 cellU2).getD 0 0 = 0 := by
    unfold buildVolumeTable
    rw [getD_map_range _ _ (by norm_num : (0 : ℕ) < 20)]
    rw [cumsumN_getD _ (by omega), sum_take_oneN _ (by omega), hc0]
    norm_num
  have hvt1 : (buildVolumeTable demConst3 cellU2).getD 1 0 = 0 := by
    unfold buildVolumeTable
    rw [getD_map_range _ _ (by norm_num : (1 : ℕ) < 20)]
    rw [cumsumN_getD _ (by omega), sum_take_twoN _ (by omega), hc0, hc1]
    norm_num
  refine ⟨by decide, rfl, ?_, ?_⟩
  · rw [cumsum_length, hvl]
  · rw [cumsum_getD _ (by omega), cumsum_getD _ (by omega),
      sum_take_one _ (by omega), sum_take_two _ (by omega), hvt0, hvt1]
    norm_num

/-- C7 witness: the invariants instantiated on a 1 x 2 window with two
distinct elevations 0 and 1. -/
theorem C7_cumulative_table_invariants_witness :
    cellU2.window.pixels.any dem01.mask = false ∧ 0 < dem01.pixelArea ∧
    ((buildRow dem01 0 cellU2).bin_edges ≠ none ∧
     (buildRow dem01 0 cellU2).volume_table = some (buildVolumeTable dem01 cellU2) ∧
     (buildRow dem01 0 cellU2).cum_volume_table =
       some (cumsum (buildVolumeTable dem01 cellU2)) ∧
     (cumsum (buildVolumeTable dem01 cellU2)).length =
       (buildVolumeTable dem01 cellU2).length ∧
     (∀ k, k < (buildVolumeTable dem01 cellU2).length →
       (cumsum (buildVolumeTable dem01 cellU2)).getD k 0 =
         ((buildVolumeTable dem01 cellU2).take (k + 1)).sum) ∧
     (cumsum (buildVolumeTable dem01 cellU2)).getD
         ((buildVolumeTable dem01 cellU2).length - 1) 0 =
       (buildVolumeTable dem01 cellU2).sum ∧
     (∀ i j, i ≤ j → j < (buildVolumeTable dem01 cellU2).length →
       (cumsum (buildVolumeTable dem01 cellU2)).getD i 0 ≤
         (cumsum (buildVolumeTable dem01 cellU2)).getD j 0) ∧
     ((∃ a ∈ buildData dem01 cellU2, ∃ b ∈ buildData dem01 cellU2, a ≠ b) →
       ∀ i j, i < j → j < (buildVolumeTable dem01 cellU2).length →
         (cumsum (buildVolumeTable dem01 cellU2)).getD i 0 <
           (cumsum (buildVolumeTable dem01 cellU2)).getD j 0)) :=
  ⟨rfl, by norm_num [dem01],
   C7_cumulative_table_invariants dem01 0 cellU2 rfl (by norm_num [dem01])⟩

lemma map_range_eq_replicate {α : Type} (n : ℕ) (f : ℕ → α) (c : α)
    (h : ∀ k, k < n → f k = c) : (List.range n).map f = List.replicate n c := by
  apply List.ext_getElem
  · simp
  · intro i h1 h2
    simp only [List.getElem_map, List.getElem_range, List.getElem_replicate]
    exact h i (by simpa using h1)

lemma sum_take_replicate_zeroN (n k : ℕ) : ((List.replicate n (0 : ℕ)).take k).sum = 0 := by
  rw [List.take_replicate, List.sum_replicate]
  simp

lemma sum_take_replicate_zeroQ (n k : ℕ) : ((List.replicate n (0 : ℚ)).take k).sum = 0 := by
  rw [List.take_replicate, List.sum_replicate]
  simp

lemma buildRow_id (dem : DemModel) (id_ : ℕ) (cell : Cell) :
    (buildRow dem id_ cell).id = id_ := by
  unfold buildRow
  split <;> rfl

lemma buildRow_slice (dem : DemModel) (id_ : ℕ) (cell : Cell) :
    (buildRow dem id_ cell).slice = cell.window := by
  unfold buildRow
  split <;> rfl

/-- C9 amended: a cell whose terrain window is degenerate (empty pixel
bounding box) is NOT treated by the invalid-pixel rule: build_tables
does not raise and emits a fully populated zero table — bin edges over
the numpy default range [0, 1] and all-zero counts, volumes and
cumulative volumes — rather than the empty (None) table. -/
theorem C9_degenerate_window_zero_table (dem : DemModel) (id_ : ℕ) (cell : Cell)
    (hdeg : cell.window.pixels = []) :
    (buildRow dem id_ cell).bin_edges = some (histEdges 0 1) ∧
    (buildRow dem id_ cell).n_per_bin = some (List.replicate 20 0) ∧
    (buildRow dem id_ cell).volume_table = some (List.replicate 20 0) ∧
    (buildRow dem id_ cell).cum_volume_table = some (List.replicate 20 0) := by
  have hdata : buildData dem cell = [] := by simp [buildData, hdeg]
  have hmask : cell.window.pixels.any dem.mask = false := by rw [hdeg]; rfl
  have hrange : histRange (buildData dem cell) = (0, 1) := by
    rw [hdata]
    rfl
  have hedges : buildEdges dem cell = histEdges 0 1 := by
    unfold buildEdges
    rw [hrange]
  have hcounts : buildCounts dem cell = List.replicate 20 0 := by
    unfold buildCounts
    rw [hrange, hdata]
    dsimp only
    unfold histCounts
    apply map_range_eq_replicate
    intro k hk
    by_cases h19 : k = 19 <;> simp [h19]
  have hvt : buildVolumeTable dem cell = List.replicate 20 0 := by
    unfold buildVolumeTable
    apply map_range_eq_replicate
    intro k hk
    rw [hcounts, cumsumN_getD _ (by simpa using hk), sum_take_replicate_zeroN]
    simp
  have hcum : cumsum (buildVolumeTable dem cell) = List.replicate 20 0 := by
    rw [hvt]
    unfold cumsum
    rw [List.length_replicate]
    apply map_range_eq_replicate
    intro k hk
    rw [sum_take_replicate_zeroQ]
  have h4 : (buildRow dem id_ cell).cum_volume_table =
      some (cumsum (buildVolumeTable dem cell)) := by simp [buildRow, hmask]
  refine ⟨by simp [buildRow, hmask, hedges], by simp [buildRow, hmask, hcounts],
    by simp [buildRow, hmask, hvt], ?_⟩
  rw [h4, hcum]

/-- C9 counterexample: the degenerate window 0:0 x 0:5 on a clean
raster yields a table whose bin_edges are present (not the None
sentinel the claim requires) and whose histogram is zero-filled. -/
theorem C9_degenerate_window_counterexample :
    (buildRow demC 0 cellDeg).bin_edges ≠ none ∧
    (buildRow demC 0 cellDeg).n_per_bin = some (List.replicate 20 0) := by
  constructor
  · decide
  · decide

/-- C9 witness: the zero-table characterisation applied to the
degenerate fixture window. -/
theorem C9_degenerate_window_zero_table_witness :
    cellDeg.window.pixels = [] ∧
    ((buildRow demC 1 cellDeg).bin_edges = some (histEdges 0 1) ∧
     (buildRow demC 1 cellDeg).n_per_bin = some (List.replicate 20 0) ∧
     (buildRow demC 1 cellDeg).volume_table = some (List.replicate 20 0) ∧
     (buildRow demC 1 cellDeg).cum_volume_table = some (List.replicate 20 0)) :=
  ⟨rfl, C9_degenerate_window_zero_table demC 1 cellDeg rfl⟩

lemma lookup_zip_not_mem (p : ℕ × ℕ) (ps : List (ℕ × ℕ)) (d : List ℚ)
    (hp : p ∉ ps) : List.lookup p (ps.zip d) = none := by
  induction ps generalizing d with
  | nil => simp
  | cons q qs ih =>
    cases d with
    | nil => simp
    | cons v vs =>
      have hpq : (p == q) = false :=
        beq_eq_false_iff_ne.mpr (fun h => hp (h ▸ List.mem_cons_self q qs))
      rw [List.zip_cons_cons]
      simp only [List.lookup, hpq]
      exact ih vs (fun hmem => hp (List.mem_cons_of_mem q hmem))

lemma bandWrite_not_mem (band : ℕ × ℕ → Option ℚ) (s : PxSlice)
    (res : SolveResult) (p : ℕ × ℕ) (hp : p ∉ s.pixels) :
    bandWrite band s res p = band p := by
  cases res with
  | level x => simp [bandWrite, hp]
  | depth d => simp [bandWrite, lookup_zip_not_mem p s.pixels d hp]

lemma bandFold_fst_mem (dem : DemModel) (method : Method) (rows : List TableRow) :
    ∀ acc : List ℕ × (ℕ × ℕ → Option ℚ), ∀ x ∈ acc.1,
      x ∈ (rows.foldl (bandStep dem method) acc).1 := by
  induction rows with
  | nil => intro acc x hx; simpa using hx
  | cons r rs ih =>
    intro acc x hx
    rw [List.foldl_cons]
    apply ih
    cases hsc : subgrid_compute r dem method with
    | none =>
      simp only [bandStep, hsc]
      exact List.mem_append_left _ hx
    | some res =>
      simp only [bandStep, hsc]
      exact hx

lemma band_excluded_mem (dem : DemModel) (method : Method) (rows : List TableRow) :
    ∀ acc : List ℕ × (ℕ × ℕ → Option ℚ), ∀ r ∈ rows,
      subgrid_compute r dem method = none →
      r.id ∈ (rows.foldl (bandStep dem method) acc).1 := by
  induction rows with
  | nil => intro acc r hr; simp at hr
  | cons r0 rs ih =>
    intro acc r hr hnone
    rw [List.foldl_cons]
    rcases List.mem_cons.mp hr with rfl | hmem
    · apply bandFold_fst_mem
      simp only [bandStep, hnone]
      exact List.mem_append_right _ (List.mem_singleton_self _)
    · exact ih _ r hmem hnone

lemma band_preserved (dem : DemModel) (method : Method) (rows : List TableRow)
    (p : ℕ × ℕ) :
    ∀ acc : List ℕ × (ℕ × ℕ → Option ℚ),
      (∀ r ∈ rows, subgrid_compute r dem method = none ∨ p ∉ r.slice.pixels) →
      (rows.foldl (bandStep dem method) acc).2 p = acc.2 p := by
  induction rows with
  | nil => intro acc h; rfl
  | cons r0 rs ih =>
    intro acc h
    rw [List.foldl_cons]
    rw [ih _ (fun r hr => h r (List.mem_cons_of_mem r0 hr))]
    rcases h r0 (List.mem_cons_self r0 rs) with hnone | hnotmem
    · simp only [bandStep, hnone]
    · cases hsc : subgrid_compute r0 dem method with
      | none => simp only [bandStep, hsc]
      | some res =>
        simp only [bandStep, hsc]
        exact bandWrite_not_mem acc.2 r0.slice res p hnotmem


/-- C5: a cell whose window contains a masked pixel gets the empty
table from build_tables (all four histogram fields None) without
raising; compute_band records that cell id in the excluded list, never
solves it (subgrid_compute returns None immediately), and any pixel of
its window that no other cell writes stays masked (none) in the output
band. -/
theorem C5_masked_cell_excluded (dem : DemModel) (cell : Cell) (id_ : ℕ)
    (tables : List TableRow) (vol1f : ℕ → ℚ) (method : Method) (p : ℕ × ℕ)
    (hmask : cell.window.pixels.any dem.mask = true)
    (hmem : buildRow dem id_ cell ∈ tables)
    (hp : p ∈ cell.window.pixels)
    (hothers : ∀ r ∈ tables, r.bin_edges = none ∨ p ∉ r.slice.pixels) :
    (buildRow dem id_ cell).bin_edges = none ∧
    (buildRow dem id_ cell).n_per_bin = none ∧
    (buildRow dem id_ cell).volume_table = none ∧
    (buildRow dem id_ cell).cum_volume_table = none ∧
    subgrid_compute { buildRow dem id_ cell with vol1 := vol1f id_ } dem method = none ∧
    id_ ∈ (compute_band dem tables vol1f method).1 ∧
    (compute_band dem tables vol1f method).2.1 p = none := by
  have hbe : (buildRow dem id_ cell).bin_edges = none := by simp [buildRow, hmask]
  refine ⟨hbe, by simp [buildRow, hmask], by simp [buildRow, hmask],
    by simp [buildRow, hmask], subgrid_compute_none _ dem method (by simpa using hbe),
    ?_, ?_⟩
  · simp only [compute_band]
    have hmem2 : ({ buildRow dem id_ cell with
        vol1 := vol1f (buildRow dem id_ cell).id } : TableRow) ∈
        tables.map (fun r => { r with vol1 := vol1f r.id }) :=
      List.mem_map_of_mem _ hmem
    have hid : ({ buildRow dem id_ cell with
        vol1 := vol1f (buildRow dem id_ cell).id } : TableRow).id = id_ := by
      simp [buildRow_id]
    have hnone : subgrid_compute ({ buildRow dem id_ cell with
        vol1 := vol1f (buildRow dem id_ cell).id }) dem method = none :=
      subgrid_compute_none _ dem method (by simpa using hbe)
    have := band_excluded_mem dem method
      (tables.map (fun r => { r with vol1 := vol1f r.id }))
      ([], fun _ => none) _ hmem2 hnone
    rwa [hid] at this
  · simp only [compute_band]
    rw [band_preserved dem method _ p _ ?_]
    intro r hr
    obtain ⟨r0, hr0, rfl⟩ := List.mem_map.mp hr
    rcases hothers r0 hr0 with hb | hnm
    · exact Or.inl (subgrid_compute_none _ dem method (by simpa using hb))
    · exact Or.inr (by simpa using hnm)

/-- C5 witness: a single-cell table set over a raster masked at the
origin pixel. -/
theorem C5_masked_cell_excluded_witness :
    cellM.window.pixels.any demM.mask = true ∧
    buildRow demM 7 cellM ∈ [buildRow demM 7 cellM] ∧
    (0, 0) ∈ cellM.window.pixels ∧
    (∀ r ∈ [buildRow demM 7 cellM], r.bin_edges = none ∨ (0, 0) ∉ r.slice.pixels) ∧
    ((buildRow demM 7 cellM).bin_edges = none ∧
     (buildRow demM 7 cellM).n_per_bin = none ∧
     (buildRow demM 7 cellM).volume_table = none ∧
     (buildRow demM 7 cellM).cum_volume_table = none ∧
     subgrid_compute { buildRow demM 7 cellM with vol1 := (fun _ => 4) 7 } demM
       Method.waterdepth = none ∧
     7 ∈ (compute_band demM [buildRow demM 7 cellM] (fun _ => 4)
       Method.waterdepth).1 ∧
     (compute_band demM [buildRow demM 7 cellM] (fun _ => 4)
       Method.waterdepth).2.1 (0, 0) = none) :=
  ⟨rfl, List.mem_singleton_self _, by decide,
   fun r hr => by
     rw [List.mem_singleton.mp hr]
     exact Or.inl rfl,
   C5_masked_cell_excluded demM cellM 7 [buildRow demM 7 cellM] (fun _ => 4)
     Method.waterdepth (0, 0) rfl (List.mem_singleton_self _) (by decide)
     (fun r hr => by
       rw [List.mem_singleton.mp hr]
       exact Or.inl rfl)⟩

/-- C8 counterexample: compute_band does NOT leave its tables input
unchanged — the vol1 column assignment mutates it, so the tables that
come out of a call on a row with vol1 = 0 and observed volume 5 differ
from the tables passed in. -/
theorem C8_tables_mutated_counterexample :
    (compute_band demC [rowE] (fun _ => 5) Method.waterdepth).2.2 ≠ [rowE] := by
  intro h
  have h3 := congrArg (fun l : List TableRow => (l.getD 0 defaultRow).vol1) h
  simp [compute_band, rowE, defaultRow] at h3

/-- C8 amended: the only mutation compute_band performs on the tables
is the vol1 column assignment, and the only mutation compute_features
performs is the vol1 / s1 / waterdepth column assignments plus the
subgrid result column; every build-time field of every row (window,
extent, histogram fields, id) is preserved, and the band is assembled
fresh. -/
theorem C8_column_mutation_frame (dem : DemModel) (tables : List TableRow)
    (vol1f s1f wdf : ℕ → ℚ) (method : Method) (i : ℕ) (hi : i < tables.length) :
    ((compute_band dem tables vol1f method).2.2.length = tables.length ∧
     ((compute_band dem tables vol1f method).2.2.getD i defaultRow =
       { tables.getD i defaultRow with vol1 := vol1f (tables.getD i defaultRow).id }) ∧
     ((compute_band dem tables vol1f method).2.2.getD i defaultRow).bin_edges =
       (tables.getD i defaultRow).bin_edges ∧
     ((compute_band dem tables vol1f method).2.2.getD i defaultRow).slice =
       (tables.getD i defaultRow).slice ∧
     ((compute_band dem tables vol1f method).2.2.getD i defaultRow).extent =
       (tables.getD i defaultRow).extent ∧
     ((compute_band dem tables vol1f method).2.2.getD i defaultRow).n_per_bin =
       (tables.getD i defaultRow).n_per_bin ∧
     ((compute_band dem tables vol1f method).2.2.getD i defaultRow).volume_table =
       (tables.getD i defaultRow).volume_table ∧
     ((compute_band dem tables vol1f method).2.2.getD i defaultRow).cum_volume_table =
       (tables.getD i defaultRow).cum_volume_table ∧
     ((compute_band dem tables vol1f method).2.2.getD i defaultRow).id =
       (tables.getD i defaultRow).id) ∧
    ((compute_features dem tables vol1f s1f wdf method).2.length = tables.length ∧
     ((compute_features dem tables vol1f s1f wdf method).2.getD i defaultRow =
       { tables.getD i defaultRow with
           vol1 := vol1f (tables.getD i defaultRow).id,
           s1 := s1f (tables.getD i defaultRow).id,
           waterdepth := wdf (tables.getD i defaultRow).id,
           subgrid_result := subgrid_compute
             { tables.getD i defaultRow with
                 vol1 := vol1f (tables.getD i defaultRow).id,
                 s1 := s1f (tables.getD i defaultRow).id,
                 waterdepth := wdf (tables.getD i defaultRow).id } dem method })) := by
  have hb := getD_map_lt (fun r : TableRow => { r with vol1 := vol1f r.id })
    tables hi defaultRow defaultRow
  have hf1 := getD_map_lt (fun r : TableRow =>
    { r with vol1 := vol1f r.id, s1 := s1f r.id, waterdepth := wdf r.id })
    tables hi defaultRow defaultRow
  have hlen1 : (tables.map (fun r : TableRow =>
      { r with vol1 := vol1f r.id, s1 := s1f r.id, waterdepth := wdf r.id })).length =
      tables.length := by simp
  have hf2 := getD_map_lt (fun r : TableRow =>
    { r with subgrid_result := subgrid_compute r dem method })
    (tables.map (fun r : TableRow =>
      { r with vol1 := vol1f r.id, s1 := s1f r.id, waterdepth := wdf r.id }))
    (by rw [hlen1]; exact hi) defaultRow defaultRow
  constructor
  · simp only [compute_band]
    rw [hb]
    refine ⟨by simp, rfl, rfl, rfl, rfl, rfl, rfl, rfl, rfl⟩
  · simp only [compute_features]
    rw [hf2, hf1]
    exact ⟨by simp, rfl⟩

/-- C8 witness: the mutation frame instantiated on a single-row table
under both compositors. -/
theorem C8_column_mutation_frame_witness :
    0 < [rowTab].length ∧
    (((compute_band demC [rowTab] (fun _ => 5) Method.waterdepth).2.2.length =
        [rowTab].length ∧
      ((compute_band demC [rowTab] (fun _ => 5) Method.waterdepth).2.2.getD 0
          defaultRow =
        { [rowTab].getD 0 defaultRow with
            vol1 := (fun _ => (5 : ℚ)) ([rowTab].getD 0 defaultRow).id }) ∧
      ((compute_band demC [rowTab] (fun _ => 5) Method.waterdepth).2.2.getD 0
          defaultRow).bin_edges = ([rowTab].getD 0 defaultRow).bin_edges ∧
      ((compute_band demC [rowTab] (fun _ => 5) Method.waterdepth).2.2.getD 0
          defaultRow).slice = ([rowTab].getD 0 defaultRow).slice ∧
      ((compute_band demC [rowTab] (fun _ => 5) Method.waterdepth).2.2.getD 0
          defaultRow).extent = ([rowTab].getD 0 defaultRow).extent ∧
      ((compute_band demC [rowTab] (fun _ => 5) Method.waterdepth).2.2.getD 0
          defaultRow).n_per_bin = ([rowTab].getD 0 defaultRow).n_per_bin ∧
      ((compute_band demC [rowTab] (fun _ => 5) Method.waterdepth).2.2.getD 0
          defaultRow).volume_table = ([rowTab].getD 0 defaultRow).volume_table ∧
      ((compute_band demC [rowTab] (fun _ => 5) Method.waterdepth).2.2.getD 0
          defaultRow).cum_volume_table =
        ([rowTab].getD 0 defaultRow).cum_volume_table ∧
      ((compute_band demC [rowTab] (fun _ => 5) Method.waterdepth).2.2.getD 0
          defaultRow).id = ([rowTab].getD 0 defaultRow).id) ∧
     ((compute_features demC [rowTab] (fun _ => 5) (fun _ => 6) (fun _ => 7)
          Method.waterdepth).2.length = [rowTab].length ∧
      ((compute_features demC [rowTab] (fun _ => 5) (fun _ => 6) (fun _ => 7)
          Method.waterdepth).2.getD 0 defaultRow =
        { [rowTab].getD 0 defaultRow with
            vol1 := (fun _ => (5 : ℚ)) ([rowTab].getD 0 defaultRow).id,
            s1 := (fun _ => (6 : ℚ)) ([rowTab].getD 0 defaultRow).id,
            waterdepth := (fun _ => (7 : ℚ)) ([rowTab].getD 0 defaultRow).id,
            subgrid_result := subgrid_compute
              { [rowTab].getD 0 defaultRow with
                  vol1 := (fun _ => (5 : ℚ)) ([rowTab].getD 0 defaultRow).id,
                  s1 := (fun _ => (6 : ℚ)) ([rowTab].getD 0 defaultRow).id,
                  waterdepth := (fun _ => (7 : ℚ)) ([rowTab].getD 0 defaultRow).id }
              demC Method.waterdepth }))) :=
  ⟨by norm_num,
   C8_column_mutation_frame demC [rowTab] (fun _ => 5) (fun _ => 6) (fun _ => 7)
     Method.waterdepth 0 (by norm_num)⟩

lemma exportRow_nCells (ds : Store) (row : TableRow) :
    (exportRow ds row).nCells = ds.nCells := by
  cases hb : row.bin_edges <;> cases hc : row.cum_volume_table <;>
    cases hv : row.volume_table <;> cases hn : row.n_per_bin <;>
    simp [exportRow, hb, hc, hv, hn]

lemma exportRow_other (ds : Store) (row : TableRow) (i : ℕ) (hne : i ≠ row.id) :
    (exportRow ds row).bin_edges i = ds.bin_edges i ∧
    (exportRow ds row).cum_volume_table i = ds.cum_volume_table i ∧
    (exportRow ds row).volume_table i = ds.volume_table i ∧
    (exportRow ds row).extent i = ds.extent i ∧
    (exportRow ds row).n_per_bin i = ds.n_per_bin i ∧
    (exportRow ds row).slice i = ds.slice i := by
  cases hb : row.bin_edges <;> cases hc : row.cum_volume_table <;>
    cases hv : row.volume_table <;> cases hn : row.n_per_bin <;>
    simp [exportRow, hb, hc, hv, hn, Function.update_noteq hne]

lemma exportRow_self (ds : Store) (row : TableRow)
    (hbe : ds.bin_edges row.id = none) (hcv : ds.cum_volume_table row.id = none)
    (hvt : ds.volume_table row.id = none) (hnp : ds.n_per_bin row.id = none) :
    (exportRow ds row).bin_edges row.id = row.bin_edges ∧
    (exportRow ds row).cum_volume_table row.id = row.cum_volume_table ∧
    (exportRow ds row).volume_table row.id = row.volume_table ∧
    (exportRow ds row).extent row.id = some row.extent ∧
    (exportRow ds row).n_per_bin row.id = row.n_per_bin ∧
    (exportRow ds row).slice row.id =
      some [row.slice.r0, row.slice.r1, row.slice.c0, row.slice.c1] := by
  cases hb : row.bin_edges <;> cases hc : row.cum_volume_table <;>
    cases hv : row.volume_table <;> cases hn : row.n_per_bin <;>
    simp [exportRow, hb, hc, hv, hn, hbe, hcv, hvt, hnp]

lemma export_nCells (ds : Store) (rows : List TableRow) :
    (export_tables ds rows).nCells = ds.nCells := by
  induction rows generalizing ds with
  | nil => rfl
  | cons r rs ih =>
    have hfold : export_tables ds (r :: rs) = export_tables (exportRow ds r) rs := rfl
    rw [hfold, ih, exportRow_nCells]

lemma export_untouched (ds : Store) (rows : List TableRow) (i : ℕ)
    (h : ∀ r ∈ rows, r.id ≠ i) :
    (export_tables ds rows).bin_edges i = ds.bin_edges i ∧
    (export_tables ds rows).cum_volume_table i = ds.cum_volume_table i ∧
    (export_tables ds rows).volume_table i = ds.volume_table i ∧
    (export_tables ds rows).extent i = ds.extent i ∧
    (export_tables ds rows).n_per_bin i = ds.n_per_bin i ∧
    (export_tables ds rows).slice i = ds.slice i := by
  induction rows generalizing ds with
  | nil => exact ⟨rfl, rfl, rfl, rfl, rfl, rfl⟩
  | cons r rs ih =>
    have hr : i ≠ r.id := Ne.symm (h r (List.mem_cons_self r rs))
    have hfold : export_tables ds (r :: rs) = export_tables (exportRow ds r) rs := rfl
    obtain ⟨u1, u2, u3, u4, u5, u6⟩ :=
      ih (exportRow ds r) (fun x hx => h x (List.mem_cons_of_mem r hx))
    obtain ⟨s1, s2, s3, s4, s5, s6⟩ := exportRow_other ds r i hr
    rw [hfold]
    exact ⟨u1.trans s1, u2.trans s2, u3.trans s3, u4.trans s4, u5.trans s5,
      u6.trans s6⟩

lemma export_written (ds : Store) (rows : List TableRow) (r : TableRow)
    (hmem : r ∈ rows) (hdist : rows.Pairwise (fun a b => a.id ≠ b.id))
    (hbe : ds.bin_edges r.id = none) (hcv : ds.cum_volume_table r.id = none)
    (hvt : ds.volume_table r.id = none) (hnp : ds.n_per_bin r.id = none) :
    (export_tables ds rows).bin_edges r.id = r.bin_edges ∧
    (export_tables ds rows).cum_volume_table r.id = r.cum_volume_table ∧
    (export_tables ds rows).volume_table r.id = r.volume_table ∧
    (export_tables ds rows).extent r.id = some r.extent ∧
    (export_tables ds rows).n_per_bin r.id = r.n_per_bin ∧
    (export_tables ds rows).slice r.id =
      some [r.slice.r0, r.slice.r1, r.slice.c0, r.slice.c1] := by
  induction rows generalizing ds with
  | nil => simp at hmem
  | cons r0 rs ih =>
    rw [List.pairwise_cons] at hdist
    obtain ⟨hd0, hdrest⟩ := hdist
    have hfold : export_tables ds (r0 :: rs) = export_tables (exportRow ds r0) rs := rfl
    rw [hfold]
    rcases List.mem_cons.mp hmem with rfl | hmem2
    · have hne : ∀ x ∈ rs, x.id ≠ r.id := fun x hx => Ne.symm (hd0 x hx)
      obtain ⟨u1, u2, u3, u4, u5, u6⟩ := export_untouched (exportRow ds r) rs r.id hne
      obtain ⟨s1, s2, s3, s4, s5, s6⟩ := exportRow_self ds r hbe hcv hvt hnp
      exact ⟨u1.trans s1, u2.trans s2, u3.trans s3, u4.trans s4, u5.trans s5,
        u6.trans s6⟩
    · have hne0 : r.id ≠ r0.id := Ne.symm (hd0 r hmem2)
      obtain ⟨s1, s2, s3, s4, s5, s6⟩ := exportRow_other ds r0 r.id hne0
      exact ih (exportRow ds r0) hmem2 hdrest (s1.trans hbe) (s2.trans hcv)
        (s3.trans hvt) (s5.trans hnp)

lemma import_tables_getD (ds : Store) {i : ℕ} (hi : i < ds.nCells) :
    (import_tables ds).getD i defaultImported =
      { bin_edges := ds.bin_edges i, cum_volume_table := ds.cum_volume_table i,
        volume_table := ds.volume_table i, extent := ds.extent i,
        n_per_bin := ds.n_per_bin i,
        slice_0 := (ds.slice i).map (fun l => l.getD 0 0),
        slice_1 := (ds.slice i).map (fun l => l.getD 1 0),
        slice_2 := (ds.slice i).map (fun l => l.getD 2 0),
        slice_3 := (ds.slice i).map (fun l => l.getD 3 0) } := by
  unfold import_tables
  exact getD_map_range _ _ hi

lemma build_tables_length (dem : DemModel) (cells : List Cell) :
    (build_tables dem cells).length = cells.length := by
  simp [build_tables]

lemma build_tables_getD (dem : DemModel) (cells : List Cell) {i : ℕ}
    (hi : i < cells.length) :
    (build_tables dem cells).getD i defaultRow =
      buildRow dem i (cells.getD i default) := by
  unfold build_tables
  exact getD_map_range _ _ hi

lemma build_tables_pairwise (dem : DemModel) (cells : List Cell) :
    (build_tables dem cells).Pairwise (fun a b => a.id ≠ b.id) := by
  unfold build_tables
  rw [List.pairwise_map]
  apply List.Pairwise.imp ?_ (List.pairwise_lt_range cells.length)
  intro a b hab
  rw [buildRow_id, buildRow_id]
  omega


lemma buildRow_extent (dem : DemModel) (id_ : ℕ) (cell : Cell) :
    (buildRow dem id_ cell).extent = cell.extent := by
  unfold buildRow
  split <;> rfl

/-- C4 amended: for every table set produced by build_tables, reading
back a written export reconstructs the stored fields row by row: each
of bin_edges, volume_table, cum_volume_table and n_per_bin round-trips
exactly, with empty cells keeping the masked sentinel (none) for those
four fields rather than zero-filled data; extent and the terrain window
(as four integers) are written for every row, empty cells included, and
round-trip as data.  rowImage is the per-row on-disk image realising
this. -/
theorem C4_store_roundtrip (dem : DemModel) (cells : List Cell) (i : ℕ)
    (hi : i < cells.length) :
    (import_tables (export_tables (create_export cells.length)
        (build_tables dem cells))).getD i defaultImported =
      rowImage ((build_tables dem cells).getD i defaultRow) := by
  have hid : ((build_tables dem cells).getD i defaultRow).id = i := by
    rw [build_tables_getD dem cells hi, buildRow_id]
  have hmem : (build_tables dem cells).getD i defaultRow ∈ build_tables dem cells := by
    rw [List.getD_eq_getElem _ _ (by rw [build_tables_length]; exact hi)]
    exact List.getElem_mem _
  have hw := export_written (create_export cells.length) (build_tables dem cells)
    ((build_tables dem cells).getD i defaultRow) hmem
    (build_tables_pairwise dem cells) rfl rfl rfl rfl
  rw [hid] at hw
  obtain ⟨w1, w2, w3, w4, w5, w6⟩ := hw
  have hnc : (export_tables (create_export cells.length)
      (build_tables dem cells)).nCells = cells.length := by
    rw [export_nCells]
    rfl
  rw [import_tables_getD _ (by rw [hnc]; exact hi)]
  unfold rowImage
  rw [w1, w2, w3, w4, w5, w6]
  rfl

/-- C4 counterexample: an empty-table cell does NOT round-trip with
all fields absent — its extent is written by export_tables (the None
skip covers only the listed histogram variables) and reads back as
concrete data, here some [5, 6, 7, 8], even though its bin_edges are
the None sentinel. -/
theorem C4_empty_cell_extent_counterexample :
    ((build_tables demA cellsA).getD 1 defaultRow).bin_edges = none ∧
    ((import_tables (export_tables (create_export cellsA.length)
        (build_tables demA cellsA))).getD 1 defaultImported).extent =
      some [5, 6, 7, 8] := by
  have hi : (1 : ℕ) < cellsA.length := by norm_num [cellsA]
  have hid : ((build_tables demA cellsA).getD 1 defaultRow).id = 1 := by
    rw [build_tables_getD demA cellsA hi, buildRow_id]
  have hmem : (build_tables demA cellsA).getD 1 defaultRow ∈
      build_tables demA cellsA := by
    rw [List.getD_eq_getElem _ _ (by rw [build_tables_length]; exact hi)]
    exact List.getElem_mem _
  have hw := export_written (create_export cellsA.length) (build_tables demA cellsA)
    ((build_tables demA cellsA).getD 1 defaultRow) hmem
    (build_tables_pairwise demA cellsA) rfl rfl rfl rfl
  rw [hid] at hw
  have hnc : (export_tables (create_export cellsA.length)
      (build_tables demA cellsA)).nCells = cellsA.length := by
    rw [export_nCells]
    rfl
  constructor
  · decide
  · rw [import_tables_getD _ (by rw [hnc]; exact hi)]
    dsimp only
    rw [hw.2.2.2.1, build_tables_getD demA cellsA hi, buildRow_extent]
    rfl

/-- C4 witness: the round trip applied to the empty-table row of the
two-cell fixture. -/
theorem C4_store_roundtrip_witness :
    1 < cellsA.length ∧
    (import_tables (export_tables (create_export cellsA.length)
        (build_tables demA cellsA))).getD 1 defaultImported =
      rowImage ((build_tables demA cellsA).getD 1 defaultRow) :=
  ⟨by norm_num [cellsA], C4_store_roundtrip demA cellsA 1 (by norm_num [cellsA])⟩

end Flowmap
